import Mathlib

/-!
# ASM64 — verification of the two-pass 6502 assembler core

Shallow embedding of the ASM64 assembler (C sources: `assembler.c`,
`symbols.c`, `expr.c`, `lexer.c`, `opcodes.c`) in Lean 4, together with
theorems settling the frozen claims about the natural-language
specification.

Conventions of the embedding:
* C `int32_t` values are Lean `Int` with explicit two's-complement
  wrapping (`wrap32`) applied exactly where the C performs 32-bit
  arithmetic; C `uint16_t` values are `Nat` reduced `% 65536` exactly
  where the C types force it; C `uint8_t` is `Nat % 256`.
* The `uint8_t` flag bitmask of `symbols.h` is embedded as a structure
  of seven independent booleans (`SymFlags`); bitwise `|`, `&~` become
  pointwise operations.
* The hash table of `symbols.c` is embedded as an association list with
  the same case-insensitive key comparison; chain order is not
  observable through `symbol_lookup`/`symbol_define`.
* C functions that return a pointer-or-NULL are embedded with `Option`;
  the `int32_t` sentinel `-1` of `anon_resolve_*` (addresses are
  `uint16_t`, hence never negative) is likewise embedded as `Option`.
* Diagnostic-only fields (source file name, line number) carried by
  `Symbol` and `AnonLabel` are omitted; they never feed back into
  assembly decisions.
-/

namespace ASM64

/-- Two's-complement wrap of an unbounded integer into `int32_t`
(the literals are `2^31` and `2^32`). -/
def wrap32 (z : Int) : Int := (z + 2147483648) % 4294967296 - 2147483648

/-- C conversion of a (possibly negative) integer to `uint16_t`. -/
def u16 (z : Int) : Nat := (z % 65536).toNat

/-- C conversion of an integer to `uint8_t` (used at `emit_byte` call sites). -/
def u8 (z : Int) : Nat := (z % 256).toNat

/-- Case-insensitive string comparison (`str_equal_nocase` / `strcasecmp`),
character-wise over the underlying character lists. -/
def strEqNoCase (a b : String) : Bool :=
  a.data.map Char.toUpper == b.data.map Char.toUpper

/-- `name[0] == '.'` (local-label test). -/
def starts_with_dot (s : String) : Bool :=
  match s.data with
  | '.' :: _ => true
  | _ => false

/-! ## Symbol store (`symbols.c`) -/

/-- The `SYM_*` flag bits of `symbols.h`, one boolean per bit.
`SYM_NONE` is `noFlags`. -/
structure SymFlags where
  defined : Bool := false
  zeropage : Bool := false
  constant : Bool := false
  referenced : Bool := false
  isLocal : Bool := false
  exported : Bool := false
  forceUpdate : Bool := false
deriving DecidableEq, Repr

def noFlags : SymFlags := {}

/-- Bitwise `|` on the flag mask. -/
def SymFlags.orF (a b : SymFlags) : SymFlags where
  defined := a.defined || b.defined
  zeropage := a.zeropage || b.zeropage
  constant := a.constant || b.constant
  referenced := a.referenced || b.referenced
  isLocal := a.isLocal || b.isLocal
  exported := a.exported || b.exported
  forceUpdate := a.forceUpdate || b.forceUpdate

/-- `flags & ~SYM_FORCE_UPDATE`. -/
def SymFlags.clearForce (a : SymFlags) : SymFlags := { a with forceUpdate := false }

/-- `SYM_DEFINED` alone. -/
def flagDefined : SymFlags := { defined := true }

/-- A symbol-table entry (`struct Symbol`); `file`/`line` diagnostics omitted,
and `display_name` always equals `name` at creation. -/
structure Symbol where
  name : String
  value : Int
  flags : SymFlags
deriving DecidableEq, Repr

/-- One hash chain of the table; the hash function only spreads entries over
buckets, so a single chain with case-insensitive search is lookup-equivalent. -/
abbrev SymbolTable := List Symbol

/-- `symbol_lookup`. -/
def symbol_lookup (tbl : SymbolTable) (name : String) : Option Symbol :=
  tbl.find? (fun s => strEqNoCase s.name name)

/-- The in-place update `symbol_define` performs on a found entry:
`SYM_CONSTANT` is cleared first when set (the force-update path), then
`value` is overwritten and `(flags & ~SYM_FORCE_UPDATE) | SYM_DEFINED`
is or-ed into the flag mask. -/
def symbol_update (sym : Symbol) (value : Int) (flags : SymFlags) : Symbol :=
  let f1 := if sym.flags.constant then { sym.flags with constant := false }
            else sym.flags
  { sym with value := value, flags := f1.orF (flags.clearForce.orF flagDefined) }

/-- `symbol_define`: returns the defined/updated symbol (`none` = the C
NULL sentinel for a constant redefinition) together with the table after the
call.  A fresh symbol is created with `flags | SYM_DEFINED`; an existing
non-constant (or force-updated) entry becomes `symbol_update` of itself. -/
def symbol_define (tbl : SymbolTable) (name : String) (value : Int)
    (flags : SymFlags) : Option Symbol × SymbolTable :=
  match tbl with
  | [] =>
      let s : Symbol := ⟨name, value, flags.orF flagDefined⟩
      (some s, [s])
  | sym :: rest =>
      if strEqNoCase sym.name name then
        if sym.flags.constant && !flags.forceUpdate then
          (none, sym :: rest)
        else
          let s' := symbol_update sym value flags
          (some s', s' :: rest)
      else
        let r := symbol_define rest name value flags
        (r.1, sym :: r.2)

/-! ## Anonymous labels (`symbols.c`) -/

/-- The anonymous-label tracker; each record keeps only its `uint16_t`
address (`file`/`line` are diagnostics). -/
structure AnonLabels where
  forward : List Nat
  forwardIndex : Nat
  backward : List Nat
deriving DecidableEq, Repr

def anon_create : AnonLabels := ⟨[], 0, []⟩

/-- `anon_reset_pass`: reset the forward cursor and clear the backward list
for pass 2; the forward list itself is preserved. -/
def anon_reset_pass (a : AnonLabels) : AnonLabels :=
  { a with forwardIndex := 0, backward := [] }

/-- `anon_define_forward` appends at index `forward_count`. -/
def anon_define_forward (a : AnonLabels) (address : Nat) : AnonLabels :=
  { a with forward := a.forward ++ [address] }

/-- `anon_define_backward` appends at index `backward_count`. -/
def anon_define_backward (a : AnonLabels) (address : Nat) : AnonLabels :=
  { a with backward := a.backward ++ [address] }

/-- `anon_resolve_forward`: reads `forward[forward_index + count - 1]`;
`none` is the C `-1` sentinel (`count < 1` or index past `forward_count`). -/
def anon_resolve_forward (a : AnonLabels) (count : Nat) : Option Nat :=
  if count < 1 then none
  else a.forward.get? (a.forwardIndex + count - 1)

/-- `anon_resolve_backward`: reads `backward[backward_count - count]`;
`none` is the C `-1` sentinel (`count < 1` or `backward_count - count < 0`). -/
def anon_resolve_backward (a : AnonLabels) (count : Nat) : Option Nat :=
  if count < 1 then none
  else if a.backward.length < count then none
  else a.backward.get? (a.backward.length - count)

/-- `anon_advance_forward`: advance the cursor, saturating at
`forward_count`. -/
def anon_advance_forward (a : AnonLabels) : AnonLabels :=
  if a.forwardIndex < a.forward.length then
    { a with forwardIndex := a.forwardIndex + 1 }
  else a

/-! ## Expressions (`expr.c`) -/

inductive UnaryOp
  | neg | notOp | comp | low | high
deriving DecidableEq, Repr

inductive BinaryOp
  | add | sub | mul | div | mod | andB | orB | xorB | shl | shr
  | eq | ne | lt | gt | le | ge
deriving DecidableEq, Repr

/-- Expression trees (`struct Expr`).  The C parser encodes anonymous
references as `EXPR_SYMBOL` nodes with synthetic names
`__anon_fwd_<n>` / `__anon_back_<n>` (printed with `snprintf` in
`parse_primary`, decoded with `strncmp`+`atoi` in `expr_eval`); this
print/parse round trip is the identity on the count, so the embedding
fuses the pair into dedicated constructors. -/
inductive Expr
  | num (v : Int)
  | sym (name : String)
  | anonFwd (count : Nat)
  | anonBack (count : Nat)
  | current
  | unary (op : UnaryOp) (e : Expr)
  | binary (op : BinaryOp) (l r : Expr)
deriving DecidableEq, Repr

/-- `ExprResult`. -/
structure ExprResult where
  value : Int
  defined : Bool
  isZeropage : Bool
deriving DecidableEq, Repr

/-- `mangle_local_name` (a `.name` under the current zone). -/
def mangle_local_name (name : String) (zone : Option String) : String :=
  let localPart := String.mk (name.data.drop 1)
  match zone with
  | none => "_global." ++ localPart
  | some z => if z = "" then "_global." ++ localPart else z ++ "." ++ localPart

/-- `expr_eval`.  The tracker is threaded through because the C mutates it
(`anon_advance_forward` after every pass-2 forward resolution attempt). -/
def expr_eval (e : Expr) (symbols : SymbolTable) (anon : AnonLabels)
    (pc : Nat) (pass : Nat) (zone : Option String) : ExprResult × AnonLabels :=
  match e with
  | .num v => (⟨v, true, decide (0 ≤ v ∧ v ≤ 0xFF)⟩, anon)
  | .current => (⟨(pc : Int), true, decide (pc ≤ 0xFF)⟩, anon)
  | .anonFwd count =>
      if pass = 1 then
        (⟨0, false, false⟩, anon)
      else
        match anon_resolve_forward anon count with
        | none => (⟨0, false, false⟩, anon_advance_forward anon)
        | some addr => (⟨(addr : Int), true, decide (addr ≤ 0xFF)⟩,
                        anon_advance_forward anon)
  | .anonBack count =>
      match anon_resolve_backward anon count with
      | none => (⟨0, false, false⟩, anon)
      | some addr => (⟨(addr : Int), true, decide (addr ≤ 0xFF)⟩, anon)
  | .sym name =>
      let lookupName := if starts_with_dot name then mangle_local_name name zone
                        else name
      match symbol_lookup symbols lookupName with
      | none => (⟨0, false, false⟩, anon)
      | some s =>
          if s.flags.defined then
            (⟨s.value, true, s.flags.zeropage || decide (0 ≤ s.value ∧ s.value ≤ 0xFF)⟩, anon)
          else
            (⟨0, false, false⟩, anon)
  | .unary op e1 =>
      let (r, anon) := expr_eval e1 symbols anon pc pass zone
      let res : ExprResult :=
        match op with
        | .neg => ⟨wrap32 (-r.value), r.defined, false⟩
        | .notOp => ⟨if r.value = 0 then 1 else 0, r.defined, false⟩
        | .comp => ⟨wrap32 (-1 - r.value), r.defined, false⟩
        | .low => ⟨Int.emod r.value 256, r.defined, true⟩
        | .high => ⟨Int.emod (Int.ediv r.value 256) 256, r.defined, true⟩
      (res, anon)
  | .binary op l r =>
      let (lv, anon) := expr_eval l symbols anon pc pass zone
      let (rv, anon) := expr_eval r symbols anon pc pass zone
      let d := lv.defined && rv.defined
      let v : Int :=
        match op with
        | .add => wrap32 (lv.value + rv.value)
        | .sub => wrap32 (lv.value - rv.value)
        | .mul => wrap32 (lv.value * rv.value)
        | .div => if rv.value = 0 then 0 else wrap32 (Int.tdiv lv.value rv.value)
        | .mod => if rv.value = 0 then 0 else Int.tmod lv.value rv.value
        | .andB => Int.land lv.value rv.value
        | .orB => Int.lor lv.value rv.value
        | .xorB => Int.xor lv.value rv.value
        | .shl => wrap32 (lv.value * 2 ^ rv.value.toNat)
        | .shr => Int.ediv (Int.emod lv.value (2 ^ 32)) (2 ^ rv.value.toNat)
        | .eq => if lv.value = rv.value then 1 else 0
        | .ne => if lv.value ≠ rv.value then 1 else 0
        | .lt => if lv.value < rv.value then 1 else 0
        | .gt => if lv.value > rv.value then 1 else 0
        | .le => if lv.value ≤ rv.value then 1 else 0
        | .ge => if lv.value ≥ rv.value then 1 else 0
      (⟨v, d, d && decide (0 ≤ v ∧ v ≤ 0xFF)⟩, anon)

/-! ## Opcode table (`opcodes.h`, `opcodes.c`) -/

inductive AddressingMode
  | implied | accumulator | immediate
  | zeropage | zeropageX | zeropageY
  | absolute | absoluteX | absoluteY
  | indirect | indirectX | indirectY
  | relative | invalid
deriving DecidableEq, Repr

/-- One row of the static opcode table:
`{ mnemonic, mode, opcode, size, cycles, page_penalty }`. -/
structure OpcodeEntry where
  mnemonic : String
  mode : AddressingMode
  opcode : Nat
  size : Nat
  cycles : Nat
  pagePenalty : Bool
deriving DecidableEq, Repr

/-- The rows of the C table used by the claims under verification (the full
table lists every 6502/6510 opcode; the rows below are copied verbatim from
`opcodes.c`). -/
def opcode_table : List OpcodeEntry :=
  [ ⟨"LDA", .immediate, 0xA9, 2, 2, false⟩,
    ⟨"LDA", .zeropage, 0xA5, 2, 3, false⟩,
    ⟨"LDA", .zeropageX, 0xB5, 2, 4, false⟩,
    ⟨"LDA", .absolute, 0xAD, 3, 4, false⟩,
    ⟨"LDA", .absoluteX, 0xBD, 3, 4, true⟩,
    ⟨"LDA", .absoluteY, 0xB9, 3, 4, true⟩,
    ⟨"LDA", .indirectX, 0xA1, 2, 6, false⟩,
    ⟨"LDA", .indirectY, 0xB1, 2, 5, true⟩,
    ⟨"BNE", .relative, 0xD0, 2, 2, true⟩,
    ⟨"NOP", .implied, 0xEA, 1, 2, false⟩,
    ⟨"RTS", .implied, 0x60, 1, 6, false⟩ ]

/-- `opcode_find`: first row matching mnemonic (case-insensitively) and mode. -/
def opcode_find (mnemonic : String) (mode : AddressingMode) : Option OpcodeEntry :=
  opcode_table.find? (fun e => strEqNoCase e.mnemonic mnemonic && e.mode == mode)

/-! ## Statements (`parser.h`) -/

/-- `LabelInfo`. -/
structure LabelInfo where
  name : String
  isLocal : Bool := false
  isAnonFwd : Bool := false
  isAnonBack : Bool := false
deriving DecidableEq, Repr

/-- `InstructionInfo` (the `cycles`/`page_penalty` listing fields are
omitted; they never influence emission). -/
structure InstructionInfo where
  mnemonic : String
  mode : AddressingMode
  operand : Option Expr
  opcode : Nat
  size : Nat
deriving DecidableEq, Repr

/-- The payload of a parsed `Statement` (the union in `parser.h`), restricted
to the statement kinds the claims exercise.  Directives carry their name
(without `!`) and argument expressions. -/
inductive StmtData
  | empty
  | labelOnly
  | instruction (info : InstructionInfo)
  | directive (name : String) (args : List Expr)
  | assignment (name : String) (value : Expr)
  | errorStmt (msg : String)
deriving DecidableEq, Repr

/-- A parsed `Statement`: optional label attachment plus payload. -/
structure Statement where
  label : Option LabelInfo
  data : StmtData
deriving DecidableEq, Repr

/-! ## Assembler state (`assembler.c`) -/

/-- `ASM_MEMORY_SIZE` (the 64 KiB image). -/
def ASM_MEMORY_SIZE : Nat := 65536

/-- Modelled from the spec: `assembler.h` is not under `src/`; the default
origin constant `ASM_DEFAULT_ORG` is the standard C64 BASIC start `$0801`
(spec §6, PRG format; every claim below that depends on an origin sets one
explicitly with `org`). -/
def ASM_DEFAULT_ORG : Nat := 0x0801

/-- Modelled from the spec: `assembler.h` is not under `src/`; the per-pass
error cap `ASM_MAX_ERRORS` ("a running error count past a configurable limit
halts the pass", spec §4.9). -/
def ASM_MAX_ERRORS : Nat := 100

/-- An `AssembledLine` record: statement, pass-1 virtual PC, the zone
captured at that line, and (after pass 2) `byte_count` with the first up to
8 emitted bytes.  `source_text` and the cycle fields are listing-only and
omitted. -/
structure AssembledLine where
  stmt : Statement
  address : Nat
  zone : Option String
  byteCount : Nat := 0
  bytes : List Nat := []
deriving DecidableEq, Repr

/-- The driver state (`struct Assembler`), restricted to the fields the
embedded operations read or write. -/
structure Assembler where
  memory : Nat → Nat
  written : Nat → Bool
  lowestAddr : Nat
  highestAddr : Nat
  pc : Nat
  realPc : Nat
  inPseudopc : Bool
  org : Nat
  symbols : SymbolTable
  anon : AnonLabels
  currentZone : Option String
  pass : Nat
  errors : Nat
  errorLog : List String
  warnings : Nat
  lines : List AssembledLine

/-- `assembler_create` (fields after `calloc` and the explicit inits). -/
def assembler_create : Assembler where
  memory := fun _ => 0
  written := fun _ => false
  lowestAddr := 0xFFFF
  highestAddr := 0
  pc := ASM_DEFAULT_ORG
  realPc := ASM_DEFAULT_ORG
  inPseudopc := false
  org := ASM_DEFAULT_ORG
  symbols := []
  anon := anon_create
  currentZone := none
  pass := 1
  errors := 0
  errorLog := []
  warnings := 0
  lines := []

/-- `assembler_error`: record a diagnostic unless the error cap is reached. -/
def assembler_error (as : Assembler) (msg : String) : Assembler :=
  if ASM_MAX_ERRORS ≤ as.errors then as
  else { as with errors := as.errors + 1, errorLog := as.errorLog ++ [msg] }

/-- `assembler_warning` (message text is not tracked). -/
def assembler_warning (as : Assembler) : Assembler :=
  { as with warnings := as.warnings + 1 }

/-- `assembler_emit_byte`: write one byte at `real_pc` (pseudo-PC mode) or
`pc`, update the written bounds, and advance both PCs with `uint16_t`
wrap-around. -/
def assembler_emit_byte (as : Assembler) (byte : Nat) : Assembler :=
  let outputAddr := if as.inPseudopc then as.realPc else as.pc
  { as with
    lowestAddr := if outputAddr < as.lowestAddr then outputAddr else as.lowestAddr
    highestAddr := if as.highestAddr < outputAddr then outputAddr else as.highestAddr
    memory := fun a => if a = outputAddr then byte % 256 else as.memory a
    written := fun a => if a = outputAddr then true else as.written a
    pc := (as.pc + 1) % 65536
    realPc := (as.realPc + 1) % 65536 }

/-- `assembler_emit_word` (low byte first). -/
def assembler_emit_word (as : Assembler) (word : Nat) : Assembler :=
  assembler_emit_byte (assembler_emit_byte as (word % 256)) (word / 256 % 256)

/-- `assembler_advance_pc` (pass 1: track sizes without emitting). -/
def assembler_advance_pc (as : Assembler) (count : Nat) : Assembler :=
  { as with pc := (as.pc + count) % 65536, realPc := (as.realPc + count) % 65536 }

/-- `assembler_set_pc` (`uint16_t` parameter). -/
def assembler_set_pc (as : Assembler) (pc : Nat) : Assembler :=
  let as := { as with pc := pc % 65536 }
  let as := if as.inPseudopc then as else { as with realPc := as.pc }
  if as.pass = 1 ∧ as.lines.length = 0 then { as with org := as.pc } else as

/-- `assembler_calc_branch_offset`: offset of `target` relative to `pc + 2`;
`none` is the C `INT_MIN` out-of-range sentinel. -/
def assembler_calc_branch_offset (target : Nat) (pc : Nat) : Option Int :=
  let offset : Int := (target : Int) - ((pc : Int) + 2)
  if offset < -128 ∨ 127 < offset then none else some offset

/-- `assembler_is_zeropage`. -/
def assembler_is_zeropage (addr : Int) : Bool := 0 ≤ addr && addr ≤ 0xFF

/-- `assembler_pseudopc_start`. -/
def assembler_pseudopc_start (as : Assembler) (pseudoAddr : Nat) : Assembler × Bool :=
  if as.inPseudopc then (assembler_error as "nested !pseudopc not allowed", false)
  else ({ as with realPc := as.pc, inPseudopc := true, pc := pseudoAddr % 65536 }, true)

/-- `assembler_pseudopc_end`. -/
def assembler_pseudopc_end (as : Assembler) : Assembler × Bool :=
  if as.inPseudopc then ({ as with pc := as.realPc, inPseudopc := false }, true)
  else (assembler_error as "!realpc without matching !pseudopc", false)

/-! ## Instruction assembly (`assembler_assemble_instruction`) -/

/-- The pass-2 zero-page re-selection `switch` (absolute forms drop to the
matching zero-page form when the mnemonic has one). -/
def reopt_zeropage_mode (mnemonic : String) (mode : AddressingMode) : AddressingMode :=
  match mode with
  | .absolute => if (opcode_find mnemonic .zeropage).isSome then .zeropage else mode
  | .absoluteX => if (opcode_find mnemonic .zeropageX).isSome then .zeropageX else mode
  | .absoluteY => if (opcode_find mnemonic .zeropageY).isSome then .zeropageY else mode
  | _ => mode

/-- Pass-2 re-evaluation of the addressing mode once the operand value is
known: the opcode byte is rewritten only when the new entry exists and its
size equals the committed size. -/
def reoptimize (info : InstructionInfo) (operandValue : Int) : InstructionInfo :=
  let newMode :=
    if assembler_is_zeropage operandValue then reopt_zeropage_mode info.mnemonic info.mode
    else info.mode
  if newMode ≠ info.mode then
    match opcode_find info.mnemonic newMode with
    | some op =>
        if op.size = info.size then { info with mode := newMode, opcode := op.opcode }
        else info
    | none => info
  else info

/-- `assembler_assemble_instruction`.  Returns the state, the (possibly
re-optimised) instruction record — the C mutates it in place — and the
success flag (`true` = return 0, `false` = return -1). -/
def assembler_assemble_instruction (as : Assembler) (info0 : InstructionInfo) :
    Assembler × InstructionInfo × Bool :=
  if info0.mode = .accumulator ∨ info0.mode = .implied then
    if as.pass = 2 then (assembler_emit_byte as info0.opcode, info0, true)
    else (assembler_advance_pc as 1, info0, true)
  else
    let step :=
      match info0.operand with
      | some e =>
          let (r, anon') := expr_eval e as.symbols as.anon as.pc as.pass as.currentZone
          (r.value, r.defined, { as with anon := anon' })
      | none => ((0 : Int), true, as)
    let operandValue := step.1
    let valueDefined := step.2.1
    let as := step.2.2
    if as.pass = 2 ∧ valueDefined = false then
      (assembler_error as "undefined symbol in operand", info0, false)
    else if info0.mode = .relative then
      if as.pass = 2 then
        match assembler_calc_branch_offset (u16 operandValue) as.pc with
        | none => (assembler_error as "branch target out of range", info0, false)
        | some off =>
            let as := assembler_emit_byte as info0.opcode
            let as := assembler_emit_byte as (Int.emod off 256).toNat
            (as, info0, true)
      else (assembler_advance_pc as 2, info0, true)
    else
      let info := if as.pass = 2 ∧ valueDefined = true then reoptimize info0 operandValue
                  else info0
      if as.pass = 2 then
        let as := assembler_emit_byte as info.opcode
        let as :=
          match info.size with
          | 2 => assembler_emit_byte as (u8 operandValue)
          | 3 => assembler_emit_word as (u16 operandValue)
          | _ => as
        (as, info, true)
      else (assembler_advance_pc as info.size, info, true)

/-! ## Labels, assignments and directives (`assembler.c`) -/

/-- `define_label` (pass 1): anonymous labels go to the tracker, locals are
mangled with the current zone, and a global label also re-binds the zone. -/
def define_label (as : Assembler) (label : LabelInfo) : Assembler :=
  let flags : SymFlags := { defined := true, zeropage := decide (as.pc ≤ 0xFF) }
  if label.isAnonFwd then { as with anon := anon_define_forward as.anon as.pc }
  else if label.isAnonBack then { as with anon := anon_define_backward as.anon as.pc }
  else if label.isLocal then
    let localPart := if starts_with_dot label.name then String.mk (label.name.data.drop 1)
                     else label.name
    let mangled :=
      match as.currentZone with
      | some z => z ++ "." ++ localPart
      | none => "_global." ++ localPart
    { as with symbols := (symbol_define as.symbols mangled (as.pc : Int) flags).2 }
  else
    let as := { as with symbols := (symbol_define as.symbols label.name (as.pc : Int) flags).2 }
    { as with currentZone := some label.name }

/-- `assemble_assignment`.  Pass 1 outside loops defines a `SYM_CONSTANT`;
pass 2 replays with `SYM_DEFINED | SYM_FORCE_UPDATE` (the embedded statement
subset has no `!for`/`!while`, so `assembler_in_loop` is always false). -/
def assemble_assignment (as : Assembler) (name : String) (value : Expr) : Assembler :=
  let (r, anon') := expr_eval value as.symbols as.anon as.pc as.pass as.currentZone
  let as := { as with anon := anon' }
  let flags : SymFlags :=
    if as.pass = 2 then { defined := true, forceUpdate := true }
    else { constant := true }
  let flags := if r.defined && assembler_is_zeropage r.value then
                 { flags with zeropage := true }
               else flags
  { as with symbols := (symbol_define as.symbols name r.value flags).2 }

/-- `assemble_byte_directive`: one byte per argument; an undefined argument
in pass 2 aborts the directive with an error. -/
def assemble_byte_directive : Assembler → List Expr → Assembler × Bool
  | as, [] => (as, true)
  | as, a :: rest =>
      let (r, anon') := expr_eval a as.symbols as.anon as.pc as.pass as.currentZone
      let as := { as with anon := anon' }
      if as.pass = 2 ∧ r.defined = false then
        (assembler_error as "undefined symbol in !byte directive", false)
      else
        let as :=
          if as.pass = 2 then
            let as := if r.value < -128 ∨ 255 < r.value then assembler_warning as else as
            assembler_emit_byte as (u8 r.value)
          else assembler_advance_pc as 1
        assemble_byte_directive as rest

/-- `assemble_org_directive`. -/
def assemble_org_directive (as : Assembler) (args : List Expr) : Assembler × Bool :=
  match args with
  | [] => (assembler_error as "org directive requires address", false)
  | a0 :: _ =>
      let (r, anon') := expr_eval a0 as.symbols as.anon as.pc as.pass as.currentZone
      let as := { as with anon := anon' }
      if r.defined then (assembler_set_pc as (u16 r.value), true)
      else (assembler_error as "org address must be constant", false)

/-- The ASCII digits `snprintf(digits, 6, "%d", sys_addr)` writes (at most
five characters fit the buffer), as byte values. -/
def decimal_digits (z : Int) : List Nat :=
  ((toString z).data.take 5).map Char.toNat

/-- The pass-2 emission block of `assemble_basic_directive`: link pointer,
line number (both little-endian), the `SYS` token `$9E`, the ASCII decimal
digits of the address, the end-of-line `$00` and the `$00 $00` program end
marker. -/
def basic_emit_stub (as : Assembler) (linkAddr lineNumber sysAddr : Int) :
    Assembler :=
  let as := assembler_emit_byte as (u8 linkAddr)
  let as := assembler_emit_byte as (u8 (Int.ediv linkAddr 256))
  let as := assembler_emit_byte as (u8 lineNumber)
  let as := assembler_emit_byte as (u8 (Int.ediv lineNumber 256))
  let as := assembler_emit_byte as 0x9E
  let as := (decimal_digits sysAddr).foldl assembler_emit_byte as
  let as := assembler_emit_byte as 0x00
  let as := assembler_emit_byte as 0x00
  assembler_emit_byte as 0x00

/-- The tail of `assemble_basic_directive` once the arguments are settled:
with no explicit address the 4-vs-5-digit estimation loop computes the
address just past the stub; `digit_count`/`total_size` are recomputed from
`sys_addr`; pass 2 emits the stub, pass 1 advances the PC by its size. -/
def basic_finish (as : Assembler) (lineNumber sysAddr0 : Int)
    (explicitAddr : Bool) : Assembler × Bool :=
  let startPc : Int := (as.pc : Int)
  let sysAddr : Int :=
    if explicitAddr then sysAddr0
    else
      let addr4 := startPc + 8 + 4
      if (if 10000 ≤ addr4 then 5 else 4) = 4 then addr4 else startPc + 8 + 5
  let digitCount : Nat := if 10000 ≤ sysAddr then 5 else 4
  let totalSize : Nat := 2 + 2 + 1 + digitCount + 1 + 2
  let linkAddr : Int := startPc + totalSize - 2
  if as.pass = 2 then (basic_emit_stub as linkAddr lineNumber sysAddr, true)
  else (assembler_advance_pc as totalSize, true)

/-- `assemble_basic_directive`: the BASIC `SYS` stub (argument handling;
see `basic_finish` for the layout computation and emission). -/
def assemble_basic_directive (as : Assembler) (args : List Expr) : Assembler × Bool :=
  let step1 :=
    match args.get? 0 with
    | none => ((10 : Int), as, true)
    | some a0 =>
        let (r, anon') := expr_eval a0 as.symbols as.anon as.pc as.pass as.currentZone
        let as := { as with anon := anon' }
        if r.defined = false ∧ as.pass = 2 then
          (r.value, assembler_error as "!basic line number must be constant", false)
        else (r.value, as, true)
  let lineNumber := step1.1
  let as := step1.2.1
  if step1.2.2 = false then (as, false) else
  let step2 :=
    match args.get? 1 with
    | none => ((0 : Int), false, as, true)
    | some a1 =>
        let (r, anon') := expr_eval a1 as.symbols as.anon as.pc as.pass as.currentZone
        let as := { as with anon := anon' }
        if r.defined = false ∧ as.pass = 2 then
          (r.value, true, assembler_error as "!basic SYS address must be constant", false)
        else (r.value, true, as, true)
  let explicitAddr := step2.2.1
  let as := step2.2.2.1
  if step2.2.2.2 = false then (as, false) else
  basic_finish as lineNumber step2.1 explicitAddr

/-- `assembler_assemble_directive`, over the embedded directive subset;
an unrecognised name draws the "unknown directive ignored" warning. -/
def assembler_assemble_directive (as : Assembler) (name : String)
    (args : List Expr) : Assembler × Bool :=
  if name = "byte" ∨ name = "by" ∨ name = "db" ∨ name = "08" then
    assemble_byte_directive as args
  else if name = "org" then assemble_org_directive as args
  else if name = "basic" then assemble_basic_directive as args
  else if name = "pseudopc" then
    match args with
    | [] => (assembler_error as "!pseudopc requires an address", false)
    | a0 :: _ =>
        let (r, anon') := expr_eval a0 as.symbols as.anon as.pc as.pass as.currentZone
        let as := { as with anon := anon' }
        if r.defined then assembler_pseudopc_start as (u16 r.value)
        else (assembler_error as "!pseudopc address must be a defined value", false)
  else if name = "realpc" then assembler_pseudopc_end as
  else (assembler_warning as, true)

/-- `assembler_assemble_statement`: define/track the label, then dispatch on
the payload.  The returned statement carries any in-place mutation of the
instruction record. -/
def assembler_assemble_statement (as0 : Assembler) (stmt : Statement) :
    Assembler × Statement × Bool :=
  let as :=
    match stmt.label with
    | none => as0
    | some lab =>
        if as0.pass = 1 then define_label as0 lab
        else if lab.isLocal = false ∧ lab.isAnonFwd = false ∧ lab.isAnonBack = false then
          { as0 with currentZone := some lab.name }
        else as0
  match stmt.data with
  | .empty => (as, stmt, true)
  | .labelOnly => (as, stmt, true)
  | .instruction info =>
      let r := assembler_assemble_instruction as info
      (r.1, { stmt with data := .instruction r.2.1 }, r.2.2)
  | .directive name args =>
      let r := assembler_assemble_directive as name args
      (r.1, stmt, r.2)
  | .assignment name value => (assemble_assignment as name value, stmt, true)
  | .errorStmt msg => (assembler_error as msg, stmt, false)

/-! ## Statement construction (the statement parser) and the two passes -/

/-- `is_branch_instruction` (`parser.c`, staged as the second document of
`src/README.md`, lines 561–569): the branch mnemonics. -/
def branch_mnemonics : List String :=
  ["BCC", "BCS", "BEQ", "BMI", "BNE", "BPL", "BVC", "BVS"]

def is_branch_instruction (m : String) : Bool :=
  branch_mnemonics.any (fun b => strEqNoCase b m)

/-- `is_accumulator_optional` (`parser.c` in `src/README.md`, lines
571–579): the shift/rotate mnemonics that admit accumulator mode. -/
def accumulator_mnemonics : List String :=
  ["ASL", "LSR", "ROL", "ROR"]

def is_accumulator_optional (m : String) : Bool :=
  accumulator_mnemonics.any (fun b => strEqNoCase b m)

/-- The explicit accumulator-operand test of `detect_addressing_mode`
(`parser.c` in `src/README.md`, lines 612–618): the operand expression is a
bare symbol `A`, compared case-insensitively. -/
def expr_is_symbol_A : Expr → Bool
  | .sym s => strEqNoCase s "A"
  | _ => false

/-- `detect_addressing_mode` (`parser.c`, staged as the second document of
`src/README.md`, lines 581–664).  Branches are relative; `#` is immediate;
no operand is accumulator when the mnemonic is a shift/rotate and the table
has the encoding, else implied; a bare `A` operand on a shift/rotate is
accumulator; parentheses give the indirect family; an indexed or plain
operand drops to the zero-page form exactly when the value is known, lies in
`0x00–0xFF` (the `value >= 0 && value <= 0xFF` test, shared with
`assembler_is_zeropage`) and the table has the zero-page encoding, else
absolute. -/
def detect_addressing_mode (mnemonic : String) (expr : Option Expr)
    (hasHash hasX hasY isIndirect : Bool) (value : Int) (valueKnown : Bool) :
    AddressingMode :=
  if is_branch_instruction mnemonic then .relative
  else if hasHash then .immediate
  else
    match expr with
    | none =>
        if is_accumulator_optional mnemonic
            && (opcode_find mnemonic .accumulator).isSome then .accumulator
        else .implied
    | some e =>
        if expr_is_symbol_A e && is_accumulator_optional mnemonic then
          .accumulator
        else if isIndirect then
          (if hasX then .indirectX else if hasY then .indirectY else .indirect)
        else if hasX then
          (if valueKnown && assembler_is_zeropage value
              && (opcode_find mnemonic .zeropageX).isSome then .zeropageX
           else .absoluteX)
        else if hasY then
          (if valueKnown && assembler_is_zeropage value
              && (opcode_find mnemonic .zeropageY).isSome then .zeropageY
           else .absoluteY)
        else
          (if valueKnown && assembler_is_zeropage value
              && (opcode_find mnemonic .zeropage).isSome then .zeropage
           else .absolute)

/-- A statement as the parser sees it before mode selection: label, mnemonic
and operand shape for instructions, or the other payloads verbatim. -/
inductive RawStmt
  | empty
  | labelOnly (label : LabelInfo)
  | instruction (label : Option LabelInfo) (mnemonic : String)
      (hasHash hasX hasY isIndirect : Bool) (operand : Option Expr)
  | directive (label : Option LabelInfo) (name : String) (args : List Expr)
  | assignment (name : String) (value : Expr)
deriving DecidableEq, Repr

/-- `parse_instruction` and the line dispatch of `parser_parse_line`
(`parser.c`, staged as the second document of `src/README.md`, lines 677–742
and 906–1046), restricted to the statement shapes the claims exercise.  The
operand is evaluated with a null anonymous-label tracker and no zone —
`parse_instruction` passes `NULL` for the tracker (every `anon_*` function
treats null exactly like an empty tracker) and the staged call omits the
`current_zone` argument — so the assembler's tracker is returned untouched;
`value = 0, value_known = 0` when there is no operand expression.  The
`(mnemonic, mode)` pair is resolved in the opcode table; when the table
lacks the mode and the operand value is unknown in pass 1, the parser falls
back to the absolute form, otherwise the statement becomes an error
(`"invalid addressing mode for instruction"`). -/
def build_statement (as : Assembler) (raw : RawStmt) : Statement × AnonLabels :=
  match raw with
  | .empty => (⟨none, .empty⟩, as.anon)
  | .labelOnly lab => (⟨some lab, .labelOnly⟩, as.anon)
  | .directive lab name args => (⟨lab, .directive name args⟩, as.anon)
  | .assignment name v => (⟨none, .assignment name v⟩, as.anon)
  | .instruction lab mnemonic hasHash hasX hasY isInd operand =>
      let r :=
        match operand with
        | some e => (expr_eval e as.symbols anon_create as.pc as.pass none).1
        | none => (⟨0, false, false⟩ : ExprResult)
      let mode := detect_addressing_mode mnemonic operand hasHash hasX hasY
                    isInd r.value r.defined
      match opcode_find mnemonic mode with
      | some e =>
          (⟨lab, .instruction ⟨mnemonic, mode, operand, e.opcode, e.size⟩⟩,
           as.anon)
      | none =>
          if r.defined = false ∧ as.pass = 1 then
            match opcode_find mnemonic .absolute with
            | some e =>
                (⟨lab,
                  .instruction ⟨mnemonic, .absolute, operand, e.opcode, e.size⟩⟩,
                 as.anon)
            | none =>
                (⟨lab, .errorStmt "invalid addressing mode for instruction"⟩,
                 as.anon)
          else
            (⟨lab, .errorStmt "invalid addressing mode for instruction"⟩,
             as.anon)

/-- One pass-1 line: parse, record the assembled line at the line's start
PC with the current zone, then assemble for symbol definition and size. -/
def assembler_pass1_line (as : Assembler) (raw : RawStmt) : Assembler :=
  let linePc := as.pc
  let built := build_statement as raw
  let as := { as with anon := built.2 }
  let line : AssembledLine := { stmt := built.1, address := linePc, zone := as.currentZone }
  let as := { as with lines := as.lines ++ [line] }
  (assembler_assemble_statement as built.1).1

/-- One iteration of the pass-1 loop; the boolean records that the error cap
stopped the pass. -/
def pass1_step (p : Assembler × Bool) (raw : RawStmt) : Assembler × Bool :=
  if p.2 then p
  else
    let a := assembler_pass1_line p.1 raw
    (a, decide (ASM_MAX_ERRORS ≤ a.errors))

/-- `assembler_pass1`: start at the origin and process every statement,
stopping once the error cap is reached. -/
def assembler_pass1 (as0 : Assembler) (prog : List RawStmt) : Assembler :=
  let as := { as0 with pass := 1, pc := as0.org }
  (prog.foldl pass1_step (as, false)).1

/-- The first `count` bytes of the image starting at `start` (the pass-2
listing capture). -/
def read_bytes (as : Assembler) (start count : Nat) : List Nat :=
  (List.range count).map (fun j => as.memory (start + j))

/-- The `byte_count`/listing-bytes capture at the end of a pass-2 line:
`byte_count = end - start` when `1 ≤ end - start ≤ 8`, capped at 8 for
longer data, and the record is left untouched otherwise. -/
def capture_line (as : Assembler) (line : AssembledLine) (stmt' : Statement)
    (startPc : Nat) : AssembledLine :=
  let endPc := if as.inPseudopc then as.realPc else as.pc
  let byteCount : Int := (endPc : Int) - (startPc : Int)
  let line := { line with stmt := stmt' }
  if 0 < byteCount ∧ byteCount ≤ 8 then
    { line with byteCount := byteCount.toNat,
                bytes := read_bytes as startPc byteCount.toNat }
  else if 8 < byteCount then
    { line with byteCount := 8, bytes := read_bytes as startPc 8 }
  else line

/-- One pass-2 line: restore the stored PC and zone, re-define anonymous
labels, re-assemble, and capture `byte_count` plus the first up to 8 bytes
from the delta of the output position. -/
def assembler_pass2_line (as : Assembler) (line : AssembledLine) :
    Assembler × AssembledLine :=
  let as := { as with pc := line.address }
  let startPc : Nat := if as.inPseudopc then as.realPc else as.pc
  let as := { as with currentZone := line.zone }
  let as :=
    match line.stmt.label with
    | some lab =>
        if lab.isAnonFwd then { as with anon := anon_define_forward as.anon as.pc }
        else if lab.isAnonBack then { as with anon := anon_define_backward as.anon as.pc }
        else as
    | none => as
  let r := assembler_assemble_statement as line.stmt
  let as := r.1
  (as, capture_line as line r.2.1 startPc)

/-- One iteration of the pass-2 loop over the stored lines, accumulating the
updated records; the boolean records that the error cap stopped the pass. -/
def pass2_step (p : Assembler × List AssembledLine × Bool)
    (line : AssembledLine) : Assembler × List AssembledLine × Bool :=
  if p.2.2 then (p.1, p.2.1 ++ [line], true)
  else
    let q := assembler_pass2_line p.1 line
    (q.1, p.2.1 ++ [q.2], decide (ASM_MAX_ERRORS ≤ q.1.errors))

/-- `assembler_pass2`: reset the per-pass state (PC back to the origin,
zone cleared, anonymous tracker reset) and replay every stored line,
stopping once the error cap is reached. -/
def pass2_init (as0 : Assembler) : Assembler :=
  { as0 with
    pass := 2, pc := as0.org, realPc := as0.org, inPseudopc := false,
    currentZone := none, anon := anon_reset_pass as0.anon }

def assembler_pass2 (as0 : Assembler) : Assembler :=
  let as := pass2_init as0
  let r := as.lines.foldl pass2_step (as, [], false)
  { r.1 with lines := r.2.1 }

/-- `assembler_assemble_string` on an already-parsed program: pass 1 from a
fresh assembler, then pass 2. -/
def assemble_program (prog : List RawStmt) : Assembler :=
  assembler_pass2 (assembler_pass1 assembler_create prog)

/-! ## Lexer fragments (`lexer.c`) -/

/-- The digit-accumulation loop of `parse_decimal`: multiply-add in
`int32_t`, flagging overflow only when the wrapped value decreases.
`none` is the "decimal number too large" error token. -/
def parse_decimal_acc : Int → List Nat → Option Int
  | v, [] => some v
  | v, d :: ds =>
      let nv := wrap32 (v * 10 + d)
      if nv < v then none else parse_decimal_acc nv ds

/-- `parse_decimal` over the literal's digit values. -/
def parse_decimal (ds : List Nat) : Option Int := parse_decimal_acc 0 ds

/-- The mathematical value of a digit sequence. -/
def decimal_value (ds : List Nat) : Nat := ds.foldl (fun a d => a * 10 + d) 0

/-- `is_alpha` (identifier-start characters). -/
def is_alpha (c : Char) : Bool :=
  ('a' ≤ c && c ≤ 'z') || ('A' ≤ c && c ≤ 'Z') || c = '_'

/-- `is_digit`. -/
def is_digit (c : Char) : Bool := '0' ≤ c && c ≤ '9'

/-- `is_alnum`. -/
def is_alnum (c : Char) : Bool := is_alpha c || is_digit c

/-- The token kinds produced by the `+` disambiguation and its neighbours. -/
inductive Token
  | macroCall (text : String)
  | plus
  | identifier (text : String)
  | anonFwdTok (count : Nat)
deriving DecidableEq, Repr

/-- The look-behind loop of `parse_macro_or_anon`, walking left from the
`+` run over the current line (the argument is the line prefix reversed):
a `:` first keeps the macro-call context, any other non-space/tab character
means expression context, and reaching the line start keeps it. -/
def look_behind_ok : List Char → Bool
  | [] => true
  | c :: rest =>
      if c = ':' then true
      else if c = ' ' ∨ c = '\t' then look_behind_ok rest
      else false

/-- `parse_macro_or_anon`: called with one `+` already consumed.
`before` is the current line's text to the left of that `+`; `rest0` the
input after it.  Returns the token and the remaining input. -/
def parse_macro_or_anon (before rest0 : List Char) : Token × List Char :=
  let extra := rest0.takeWhile (fun c => c = '+')
  let rest := rest0.dropWhile (fun c => c = '+')
  let plusCount := 1 + extra.length
  match rest with
  | [] => (Token.anonFwdTok plusCount, [])
  | c :: _ =>
      if plusCount = 1 ∧ is_alpha c = true then
        if look_behind_ok before.reverse then
          (Token.macroCall ("+" ++ String.mk (rest.takeWhile is_alnum)),
           rest.dropWhile is_alnum)
        else (Token.plus, rest)
      else if plusCount = 1 ∧ (is_digit c = true ∨ c = '$' ∨ c = '%' ∨ c = '(' ∨
                c = '\'' ∨ c = '*' ∨ c = '<' ∨ c = '>' ∨ c = '-' ∨ c = '~' ∨ c = '!') then
        (Token.plus, rest)
      else (Token.anonFwdTok plusCount, rest)

/-- `parse_identifier` via `lexer_next` on input starting with an
identifier-start character: the token is the maximal alphanumeric run. -/
def lex_identifier (cs : List Char) : Token × List Char :=
  (Token.identifier (String.mk (cs.takeWhile is_alnum)), cs.dropWhile is_alnum)

/-! ## Claim C5: `symbol_define` semantics -/

lemma symbol_define_not_found (tbl : SymbolTable) (name : String) (value : Int)
    (flags : SymFlags) (h : symbol_lookup tbl name = none) :
    symbol_define tbl name value flags =
      (some ⟨name, value, flags.orF flagDefined⟩,
       tbl ++ [⟨name, value, flags.orF flagDefined⟩]) := by
  induction tbl with
  | nil => simp [symbol_define]
  | cons s rest ih =>
      cases hc : strEqNoCase s.name name with
      | true => simp [symbol_lookup, List.find?, hc] at h
      | false =>
          have h' : symbol_lookup rest name = none := by
            simpa [symbol_lookup, List.find?, hc] using h
          simp [symbol_define, hc, ih h']

lemma symbol_define_found (tbl : SymbolTable) (name : String) (value : Int)
    (flags : SymFlags) :
    ∀ sym, symbol_lookup tbl name = some sym →
      (sym.flags.constant && !flags.forceUpdate) = false →
      ∃ tbl', symbol_define tbl name value flags =
          (some (symbol_update sym value flags), tbl') ∧
        symbol_lookup tbl' name = some (symbol_update sym value flags) := by
  induction tbl with
  | nil => intro sym h _; simp [symbol_lookup] at h
  | cons s rest ih =>
      intro sym h hnc
      cases hc : strEqNoCase s.name name with
      | true =>
          have hsym : s = sym := by
            simpa [symbol_lookup, List.find?, hc] using h
          subst hsym
          refine ⟨symbol_update s value flags :: rest, ?_, ?_⟩
          · simp [symbol_define, hc, hnc]
          · have hn : strEqNoCase (symbol_update s value flags).name name = true := by
              simpa [symbol_update] using hc
            simp [symbol_lookup, List.find?, hn]
      | false =>
          have h' : symbol_lookup rest name = some sym := by
            simpa [symbol_lookup, List.find?, hc] using h
          obtain ⟨tbl', h1, h2⟩ := ih sym h' hnc
          refine ⟨s :: tbl', ?_, ?_⟩
          · simp [symbol_define, hc, h1]
          · simpa [symbol_lookup, List.find?, hc] using h2

lemma symbol_define_constant_blocked (tbl : SymbolTable) (name : String)
    (value : Int) (flags : SymFlags) :
    ∀ sym, symbol_lookup tbl name = some sym → sym.flags.constant = true →
      flags.forceUpdate = false →
      symbol_define tbl name value flags = (none, tbl) := by
  induction tbl with
  | nil => intro sym h _ _; simp [symbol_lookup] at h
  | cons s rest ih =>
      intro sym h hconst hfu
      cases hc : strEqNoCase s.name name with
      | true =>
          have hsym : s = sym := by
            simpa [symbol_lookup, List.find?, hc] using h
          subst hsym
          simp [symbol_define, hc, hconst, hfu]
      | false =>
          have h' : symbol_lookup rest name = some sym := by
            simpa [symbol_lookup, List.find?, hc] using h
          simp [symbol_define, hc, ih sym h' hconst hfu]

/-- **C5.**  `symbol_define` behaves by cases on the existing entry: a fresh
name is inserted with `SYM_DEFINED` set; a non-constant entry has its value
overwritten, the requested flag bits (other than the transient
`SYM_FORCE_UPDATE`) or-ed in and `SYM_DEFINED` set; a constant entry with a
`SYM_FORCE_UPDATE` request (which, at every call site, does not itself carry
`SYM_CONSTANT`) loses `SYM_CONSTANT`, takes the new value and stays
`SYM_DEFINED`; a constant entry without `SYM_FORCE_UPDATE` makes the call
fail with the null sentinel and leaves the table unchanged. -/
theorem c5_symbol_define (tbl : SymbolTable) (name : String) (value : Int)
    (flags : SymFlags) :
    (symbol_lookup tbl name = none →
      symbol_define tbl name value flags =
        (some ⟨name, value, flags.orF flagDefined⟩,
         tbl ++ [⟨name, value, flags.orF flagDefined⟩])) ∧
    (∀ sym, symbol_lookup tbl name = some sym → sym.flags.constant = false →
      ∃ tbl', symbol_define tbl name value flags =
          (some ⟨sym.name, value, sym.flags.orF (flags.clearForce.orF flagDefined)⟩, tbl') ∧
        symbol_lookup tbl' name =
          some ⟨sym.name, value, sym.flags.orF (flags.clearForce.orF flagDefined)⟩) ∧
    (∀ sym, symbol_lookup tbl name = some sym → sym.flags.constant = true →
      flags.forceUpdate = true → flags.constant = false →
      ∃ s' tbl', symbol_define tbl name value flags = (some s', tbl') ∧
        s'.value = value ∧ s'.flags.constant = false ∧ s'.flags.defined = true ∧
        symbol_lookup tbl' name = some s') ∧
    (∀ sym, symbol_lookup tbl name = some sym → sym.flags.constant = true →
      flags.forceUpdate = false →
      symbol_define tbl name value flags = (none, tbl)) := by
  refine ⟨symbol_define_not_found tbl name value flags, ?_, ?_, ?_⟩
  · intro sym h hnc
    have hupd : symbol_update sym value flags =
        ⟨sym.name, value, sym.flags.orF (flags.clearForce.orF flagDefined)⟩ := by
      simp [symbol_update, hnc]
    obtain ⟨tbl', h1, h2⟩ :=
      symbol_define_found tbl name value flags sym h (by simp [hnc])
    exact ⟨tbl', by rwa [hupd] at h1, by rwa [hupd] at h2⟩
  · intro sym h hconst hfu hfc
    obtain ⟨tbl', h1, h2⟩ :=
      symbol_define_found tbl name value flags sym h (by simp [hfu])
    refine ⟨symbol_update sym value flags, tbl', h1, rfl, ?_, ?_, h2⟩
    · simp [symbol_update, hconst, SymFlags.orF, SymFlags.clearForce, flagDefined, hfc]
    · simp [symbol_update, SymFlags.orF, flagDefined]
  · exact symbol_define_constant_blocked tbl name value flags

/-- Witness for C5 at a concrete table: a constant symbol, redefined without
`SYM_FORCE_UPDATE`, is left untouched and the call fails. -/
theorem c5_symbol_define_witness :
    symbol_define [⟨"X", 1, { defined := true, constant := true }⟩] "x" 2
        { defined := true } =
      (none, [⟨"X", 1, { defined := true, constant := true }⟩]) :=
  (c5_symbol_define [⟨"X", 1, { defined := true, constant := true }⟩] "x" 2
      { defined := true }).2.2.2
    ⟨"X", 1, { defined := true, constant := true }⟩ (by decide) rfl rfl

/-! ## Claim C6: the anonymous-label tracker across passes -/

/-- **C6.**  `anon_reset_pass` clears the backward list and resets the
forward cursor while preserving the forward list recorded in pass 1; and a
pass-2 evaluation of a forward reference with count `k` that finds
`forward[cursor + k - 1]` yields exactly that address and advances the
cursor by one. -/
theorem c6_anon_tracker :
    (∀ a : AnonLabels, anon_reset_pass a = ⟨a.forward, 0, []⟩) ∧
    (∀ (a : AnonLabels) (k : Nat) (syms : SymbolTable) (pc : Nat)
        (zone : Option String) (addr : Nat),
      1 ≤ k → a.forward.get? (a.forwardIndex + k - 1) = some addr →
      expr_eval (.anonFwd k) syms a pc 2 zone =
        (⟨(addr : Int), true, decide (addr ≤ 0xFF)⟩,
         { a with forwardIndex := a.forwardIndex + 1 })) := by
  constructor
  · intro a; rfl
  · intro a k syms pc zone addr hk hget
    have hlt : a.forwardIndex + k - 1 < a.forward.length :=
      (List.get?_eq_some.mp hget).1
    have hidx : a.forwardIndex < a.forward.length := by omega
    have hk' : ¬ k < 1 := by omega
    rw [List.get?_eq_getElem?] at hget
    simp [expr_eval, anon_resolve_forward, anon_advance_forward, hk', hget, hidx]

/-- Witness for C6 at a concrete tracker: a single recorded forward label at
`$1234`, cursor 0, reference `+`. -/
theorem c6_anon_tracker_witness :
    expr_eval (.anonFwd 1) [] ⟨[0x1234], 0, []⟩ 0 2 none =
      (⟨((0x1234 : Nat) : Int), true, decide ((0x1234 : Nat) ≤ 0xFF)⟩,
       { (⟨[0x1234], 0, []⟩ : AnonLabels) with forwardIndex := 0 + 1 }) :=
  c6_anon_tracker.2 ⟨[0x1234], 0, []⟩ 1 [] 0 none 0x1234 (by decide) (by decide)

/-! ## Claim C10: backward-reference underflow -/

/-- **C10.**  Resolving a backward anonymous reference with count `k` when
fewer than `k` backward labels are recorded yields the failure sentinel;
the evaluator turns it into `{value = 0, defined = false}` without touching
the tracker; and in pass 2 an instruction whose operand evaluates undefined
reports "undefined symbol in operand" and emits nothing. -/
theorem c10_backward_underflow :
    (∀ (a : AnonLabels) (k : Nat), a.backward.length < k →
      anon_resolve_backward a k = none) ∧
    (∀ (a : AnonLabels) (k : Nat) (syms : SymbolTable) (pc pass : Nat)
        (zone : Option String), a.backward.length < k →
      expr_eval (.anonBack k) syms a pc pass zone = (⟨0, false, false⟩, a)) ∧
    (∀ (as : Assembler) (info : InstructionInfo) (e : Expr),
      as.pass = 2 → ¬(info.mode = .accumulator ∨ info.mode = .implied) →
      info.operand = some e →
      (expr_eval e as.symbols as.anon as.pc 2 as.currentZone).1.defined = false →
      (assembler_assemble_instruction as info).2.2 = false ∧
      (assembler_assemble_instruction as info).1.memory = as.memory ∧
      (assembler_assemble_instruction as info).1.pc = as.pc ∧
      (as.errors < ASM_MAX_ERRORS →
        (assembler_assemble_instruction as info).1.errorLog =
          as.errorLog ++ ["undefined symbol in operand"])) := by
  have hres : ∀ (a : AnonLabels) (k : Nat), a.backward.length < k →
      anon_resolve_backward a k = none := by
    intro a k h
    have hk' : ¬ k < 1 := by omega
    simp [anon_resolve_backward, hk', h]
  refine ⟨hres, ?_, ?_⟩
  · intro a k syms pc pass zone h
    simp [expr_eval, hres a k h]
  · intro as info e h2 hmode hop hdef
    have hcap : ¬ ASM_MAX_ERRORS ≤ as.errors → as.errors < ASM_MAX_ERRORS := by omega
    simp only [assembler_assemble_instruction, hop, h2, hmode, if_false, if_neg hmode]
    simp [hdef, assembler_error]
    split
    · simp_all
    · simp_all [Nat.lt_iff_add_one_le]

/-- Witness for C10: empty backward list, reference `-` as the operand of a
pass-2 `LDA`. -/
theorem c10_backward_underflow_witness :
    ((assembler_assemble_instruction
        { assembler_create with pass := 2 }
        ⟨"LDA", .absolute, some (.anonBack 1), 0xAD, 3⟩).2.2 = false ∧
     (assembler_assemble_instruction
        { assembler_create with pass := 2 }
        ⟨"LDA", .absolute, some (.anonBack 1), 0xAD, 3⟩).1.memory =
       ({ assembler_create with pass := 2 } : Assembler).memory ∧
     (assembler_assemble_instruction
        { assembler_create with pass := 2 }
        ⟨"LDA", .absolute, some (.anonBack 1), 0xAD, 3⟩).1.pc =
       ({ assembler_create with pass := 2 } : Assembler).pc ∧
     (({ assembler_create with pass := 2 } : Assembler).errors < ASM_MAX_ERRORS →
       (assembler_assemble_instruction
          { assembler_create with pass := 2 }
          ⟨"LDA", .absolute, some (.anonBack 1), 0xAD, 3⟩).1.errorLog =
         ({ assembler_create with pass := 2 } : Assembler).errorLog ++
           ["undefined symbol in operand"])) :=
  c10_backward_underflow.2.2 { assembler_create with pass := 2 }
    ⟨"LDA", .absolute, some (.anonBack 1), 0xAD, 3⟩ (.anonBack 1)
    rfl (by decide) rfl (by decide)

/-! ## Claim C7: decimal-literal overflow detection -/

/-- The mathematical value of `ds` accumulated on top of `acc` (the exact,
unwrapped counterpart of `parse_decimal_acc`). -/
def decimal_acc_value (acc : Int) (ds : List Nat) : Int :=
  ds.foldl (fun a d => a * 10 + d) acc

lemma decimal_acc_value_mono (ds : List Nat) :
    ∀ acc : Int, 0 ≤ acc → acc ≤ decimal_acc_value acc ds := by
  induction ds with
  | nil => intro acc _; simp [decimal_acc_value]
  | cons d ds ih =>
      intro acc hacc
      have h1 : acc ≤ acc * 10 + (d : Int) := by
        have : (0 : Int) ≤ d := Int.ofNat_nonneg d
        omega
      have h2 : (0 : Int) ≤ acc * 10 + d := by
        have : (0 : Int) ≤ d := Int.ofNat_nonneg d
        omega
      calc acc ≤ acc * 10 + (d : Int) := h1
        _ ≤ decimal_acc_value (acc * 10 + d) ds := ih _ h2
        _ = decimal_acc_value acc (d :: ds) := rfl

lemma parse_decimal_acc_overflow (ds : List Nat) :
    ∀ acc : Int, 0 ≤ acc → acc < 2147483648 →
      2147483648 ≤ decimal_acc_value acc ds →
      decimal_acc_value acc ds < 4294967296 →
      parse_decimal_acc acc ds = none := by
  induction ds with
  | nil =>
      intro acc _ hlt hge _
      have hnil : decimal_acc_value acc [] = acc := rfl
      rw [hnil] at hge
      exact absurd hge (by omega)
  | cons d ds ih =>
      intro acc hacc0 hacc hge hlt
      have hd0 : (0 : Int) ≤ d := Int.ofNat_nonneg d
      have heval : decimal_acc_value acc (d :: ds) =
          decimal_acc_value (acc * 10 + d) ds := rfl
      rw [heval] at hge hlt
      have he0 : (0 : Int) ≤ acc * 10 + d := by omega
      have hee : acc * 10 + (d : Int) ≤ decimal_acc_value (acc * 10 + d) ds :=
        decimal_acc_value_mono ds _ he0
      by_cases hcase : acc * 10 + (d : Int) < 2147483648
      · have hw : wrap32 (acc * 10 + d) = acc * 10 + d := by
          unfold wrap32; omega
        have hnd : ¬ (acc * 10 + (d : Int) < acc) := by omega
        simp only [parse_decimal_acc, hw, hnd, if_false]
        exact ih _ he0 hcase hge hlt
      · have hw : wrap32 (acc * 10 + d) = acc * 10 + d - 4294967296 := by
          unfold wrap32; omega
        have hnd : acc * 10 + (d : Int) - 4294967296 < acc := by omega
        simp only [parse_decimal_acc, hw, hnd, if_true]

lemma decimal_value_cast (ds : List Nat) :
    ∀ n : Nat, ((ds.foldl (fun a d => a * 10 + d) n : Nat) : Int) =
      decimal_acc_value (n : Int) ds := by
  induction ds with
  | nil => intro n; simp [decimal_acc_value]
  | cons d ds ih =>
      intro n
      have := ih (n * 10 + d)
      simp only [List.foldl_cons, decimal_acc_value] at this ⊢
      rw [this]
      push_cast
      rfl

/-- **C7 counterexample.**  The decimal literal `5000000000` exceeds
`2147483647`, yet the lexer accepts it as a number token with the wrapped
value `705032704` (`5000000000 - 2^32`): at no accumulation step does the
wrapped `int32_t` value decrease, so the overflow check never fires. -/
theorem c7_counterexample :
    parse_decimal [5, 0, 0, 0, 0, 0, 0, 0, 0, 0] = some 705032704 ∧
    2147483647 < decimal_value [5, 0, 0, 0, 0, 0, 0, 0, 0, 0] := by
  constructor
  · decide
  · decide

/-- **C7 (amended).**  A decimal literal whose mathematical value lies in
`2147483648 ≤ v < 4294967296` is always rejected with the "decimal number
too large" error token (the first accumulation step that enters the upper
half wraps negative and the check fires); literals with `v ≥ 2^32` can
escape the check, as the counterexample shows. -/
theorem c7_amended (ds : List Nat) (h1 : 2147483647 < decimal_value ds)
    (h2 : decimal_value ds < 4294967296) : parse_decimal ds = none := by
  unfold parse_decimal
  apply parse_decimal_acc_overflow ds 0 le_rfl (by omega)
  · have := decimal_value_cast ds 0
    simp only [Nat.cast_zero] at this
    unfold decimal_value at h1
    omega
  · have := decimal_value_cast ds 0
    simp only [Nat.cast_zero] at this
    unfold decimal_value at h2
    omega

/-- Witness for C7 (amended) at the literal `2147483648`. -/
theorem c7_amended_witness :
    2147483647 < decimal_value [2, 1, 4, 7, 4, 8, 3, 6, 4, 8] ∧
    decimal_value [2, 1, 4, 7, 4, 8, 3, 6, 4, 8] < 4294967296 ∧
    parse_decimal [2, 1, 4, 7, 4, 8, 3, 6, 4, 8] = none :=
  ⟨by decide, by decide, c7_amended _ (by decide) (by decide)⟩

/-! ## Claim C8: `+` disambiguation in the lexer -/

lemma parse_macro_or_anon_alpha (before : List Char) (c : Char) (cs : List Char)
    (h : is_alpha c = true) :
    parse_macro_or_anon before (c :: cs) =
      (if look_behind_ok before.reverse then
         (Token.macroCall ("+" ++ String.mk ((c :: cs).takeWhile is_alnum)),
          (c :: cs).dropWhile is_alnum)
       else (Token.plus, c :: cs)) := by
  have hne : ¬ (c = '+') := by
    intro hc; subst hc; exact absurd h (by decide)
  simp [parse_macro_or_anon, List.takeWhile_cons, List.dropWhile_cons, hne, h]

/-- **C8.**  A single `+` followed by an identifier-start character lexes as
a macro-call token (text `+<identifier>`) when everything to its left on the
line is spaces/tabs or the nearest non-space character is `:`; otherwise it
lexes as the `+` operator and the identifier is the next token.  The four
spec scenarios: `+foo` at column 0, `+foo` after `lbl:`, `1+foo`, `A+B`. -/
theorem c8_macro_call :
    (∀ (before : List Char) (c : Char) (cs : List Char), is_alpha c = true →
      look_behind_ok before.reverse = true →
      parse_macro_or_anon before (c :: cs) =
        (Token.macroCall ("+" ++ String.mk ((c :: cs).takeWhile is_alnum)),
         (c :: cs).dropWhile is_alnum)) ∧
    (∀ (before : List Char) (c : Char) (cs : List Char), is_alpha c = true →
      look_behind_ok before.reverse = false →
      parse_macro_or_anon before (c :: cs) = (Token.plus, c :: cs) ∧
      lex_identifier (c :: cs) =
        (Token.identifier (String.mk ((c :: cs).takeWhile is_alnum)),
         (c :: cs).dropWhile is_alnum)) ∧
    parse_macro_or_anon [] "foo".data = (Token.macroCall "+foo", []) ∧
    parse_macro_or_anon "lbl: ".data "foo".data = (Token.macroCall "+foo", []) ∧
    (parse_macro_or_anon "1".data "foo".data = (Token.plus, "foo".data) ∧
      lex_identifier "foo".data = (Token.identifier "foo", [])) ∧
    (parse_macro_or_anon "A".data "B".data = (Token.plus, "B".data) ∧
      lex_identifier "B".data = (Token.identifier "B", [])) := by
  refine ⟨?_, ?_, by decide, by decide, ⟨by decide, by decide⟩, ⟨by decide, by decide⟩⟩
  · intro before c cs h hctx
    rw [parse_macro_or_anon_alpha before c cs h, hctx]
    simp
  · intro before c cs h hctx
    refine ⟨?_, rfl⟩
    rw [parse_macro_or_anon_alpha before c cs h, hctx]
    simp

/-- Witness for C8: `A+B` — non-space look-behind forces operator context. -/
theorem c8_macro_call_witness :
    parse_macro_or_anon ['A'] ('B' :: []) = (Token.plus, 'B' :: []) ∧
    lex_identifier ('B' :: []) =
      (Token.identifier (String.mk (('B' :: []).takeWhile is_alnum)),
       ('B' :: []).dropWhile is_alnum) :=
  c8_macro_call.2.1 ['A'] 'B' [] (by decide) (by decide)

/-! ## Claim C9: emission stays inside the 64 KiB image -/

/-- The machine-width invariant: every program-counter-like field holds a
`uint16_t` value, and every stored line address does too. -/
def wf_state (as : Assembler) : Prop :=
  as.pc < 65536 ∧ as.realPc < 65536 ∧ as.org < 65536 ∧
    ∀ l ∈ as.lines, l.address < 65536

lemma wf_emit_byte (as : Assembler) (b : Nat) (h : wf_state as) :
    wf_state (assembler_emit_byte as b) := by
  obtain ⟨-, -, h3, h4⟩ := h
  exact ⟨Nat.mod_lt _ (by omega), Nat.mod_lt _ (by omega), h3, h4⟩

lemma wf_emit_word (as : Assembler) (w : Nat) (h : wf_state as) :
    wf_state (assembler_emit_word as w) :=
  wf_emit_byte _ _ (wf_emit_byte _ _ h)

lemma wf_advance_pc (as : Assembler) (n : Nat) (h : wf_state as) :
    wf_state (assembler_advance_pc as n) := by
  obtain ⟨-, -, h3, h4⟩ := h
  exact ⟨Nat.mod_lt _ (by omega), Nat.mod_lt _ (by omega), h3, h4⟩

lemma wf_set_pc (as : Assembler) (p : Nat) (h : wf_state as) :
    wf_state (assembler_set_pc as p) := by
  obtain ⟨h1, h2, h3, h4⟩ := h
  have hm : p % 65536 < 65536 := Nat.mod_lt _ (by omega)
  unfold assembler_set_pc
  dsimp only
  split <;> split <;>
    exact ⟨by simpa using hm, by first | simpa using hm | simpa using h2,
           by first | simpa using hm | simpa using h3, by simpa using h4⟩

lemma wf_error (as : Assembler) (msg : String) (h : wf_state as) :
    wf_state (assembler_error as msg) := by
  unfold assembler_error
  split
  · exact h
  · exact h

lemma wf_pseudopc_start (as : Assembler) (p : Nat) (h : wf_state as) :
    wf_state (assembler_pseudopc_start as p).1 := by
  obtain ⟨h1, h2, h3, h4⟩ := h
  unfold assembler_pseudopc_start
  split
  · exact wf_error _ _ ⟨h1, h2, h3, h4⟩
  · exact ⟨Nat.mod_lt _ (by omega), h1, h3, h4⟩

lemma wf_pseudopc_end (as : Assembler) (h : wf_state as) :
    wf_state (assembler_pseudopc_end as).1 := by
  obtain ⟨h1, h2, h3, h4⟩ := h
  unfold assembler_pseudopc_end
  split
  · exact ⟨h2, h2, h3, h4⟩
  · exact wf_error _ _ ⟨h1, h2, h3, h4⟩

lemma wf_anon (as : Assembler) (a : AnonLabels) (h : wf_state as) :
    wf_state { as with anon := a } := h

lemma wf_assemble_instruction (as : Assembler) (info : InstructionInfo)
    (h : wf_state as) :
    wf_state (assembler_assemble_instruction as info).1 := by
  unfold assembler_assemble_instruction
  split
  · split
    · exact wf_emit_byte _ _ h
    · exact wf_advance_pc _ _ h
  · cases hop : info.operand with
    | none =>
        simp only [hop]
        split
        · exact wf_error _ _ h
        · split
          · split
            · split
              · exact wf_error _ _ h
              · exact wf_emit_byte _ _ (wf_emit_byte _ _ h)
            · exact wf_advance_pc _ _ h
          · split
            · split
              · exact wf_emit_byte _ _ (wf_emit_byte _ _ h)
              · exact wf_emit_word _ _ (wf_emit_byte _ _ h)
              · exact wf_emit_byte _ _ h
            · exact wf_advance_pc _ _ h
    | some e =>
        simp only [hop]
        split
        · exact wf_error _ _ h
        · split
          · split
            · split
              · exact wf_error _ _ h
              · exact wf_emit_byte _ _ (wf_emit_byte _ _ h)
            · exact wf_advance_pc _ _ h
          · split
            · split
              · exact wf_emit_byte _ _ (wf_emit_byte _ _ h)
              · exact wf_emit_word _ _ (wf_emit_byte _ _ h)
              · exact wf_emit_byte _ _ h
            · exact wf_advance_pc _ _ h

lemma wf_define_label (as : Assembler) (lab : LabelInfo) (h : wf_state as) :
    wf_state (define_label as lab) := by
  unfold define_label
  split
  · exact h
  · split
    · exact h
    · split
      · exact h
      · exact h

lemma wf_assignment (as : Assembler) (name : String) (value : Expr)
    (h : wf_state as) : wf_state (assemble_assignment as name value) := h

lemma wf_byte_directive (args : List Expr) :
    ∀ as : Assembler, wf_state as → wf_state (assemble_byte_directive as args).1 := by
  induction args with
  | nil => intro as h; exact h
  | cons a rest ih =>
      intro as h
      unfold assemble_byte_directive
      dsimp only
      split
      · exact wf_error _ _ h
      · split
        · split
          · exact ih _ (wf_emit_byte _ _ h)
          · exact ih _ (wf_emit_byte _ _ h)
        · exact ih _ (wf_advance_pc _ _ h)

lemma wf_org_directive (as : Assembler) (args : List Expr) (h : wf_state as) :
    wf_state (assemble_org_directive as args).1 := by
  unfold assemble_org_directive
  dsimp only
  split
  · exact wf_error _ _ h
  · split
    · exact wf_set_pc _ _ h
    · exact wf_error _ _ h

lemma wf_fold_emit (ds : List Nat) :
    ∀ s : Assembler, wf_state s → wf_state (ds.foldl assembler_emit_byte s) := by
  induction ds with
  | nil => intro s hs; exact hs
  | cons d ds ih => intro s hs; exact ih _ (wf_emit_byte _ _ hs)

lemma wf_basic_emit_stub (as : Assembler) (linkAddr lineNumber sysAddr : Int)
    (h : wf_state as) :
    wf_state (basic_emit_stub as linkAddr lineNumber sysAddr) :=
  wf_emit_byte _ _ (wf_emit_byte _ _ (wf_emit_byte _ _ (wf_fold_emit _ _
    (wf_emit_byte _ _ (wf_emit_byte _ _ (wf_emit_byte _ _ (wf_emit_byte _ _
      (wf_emit_byte _ _ h))))))))

lemma wf_basic_finish (as : Assembler) (lineNumber sysAddr0 : Int)
    (explicitAddr : Bool) (h : wf_state as) :
    wf_state (basic_finish as lineNumber sysAddr0 explicitAddr).1 := by
  unfold basic_finish
  dsimp only
  split
  · exact wf_basic_emit_stub _ _ _ _ h
  · exact wf_advance_pc _ _ h

lemma wf_basic_directive (as : Assembler) (args : List Expr) (h : wf_state as) :
    wf_state (assemble_basic_directive as args).1 := by
  unfold assemble_basic_directive
  cases h0 : args.get? 0 <;> cases h1 : args.get? 1 <;>
    · dsimp only
      repeat' split
      all_goals
        first
          | exact absurd rfl (by assumption)
          | exact wf_basic_finish _ _ _ _ h
          | exact wf_basic_finish _ _ _ _ (wf_error _ _ h)
          | exact wf_error _ _ h
          | exact wf_error _ _ (wf_error _ _ h)
          | exact h

lemma wf_assemble_directive (as : Assembler) (name : String) (args : List Expr)
    (h : wf_state as) :
    wf_state (assembler_assemble_directive as name args).1 := by
  unfold assembler_assemble_directive
  split
  · exact wf_byte_directive _ _ h
  · split
    · exact wf_org_directive _ _ h
    · split
      · exact wf_basic_directive _ _ h
      · split
        · split
          · exact wf_error _ _ h
          · dsimp only
            split
            · exact wf_pseudopc_start _ _ h
            · exact wf_error _ _ h
        · split
          · exact wf_pseudopc_end _ h
          · exact h

lemma wf_assemble_statement (as : Assembler) (stmt : Statement)
    (h : wf_state as) :
    wf_state (assembler_assemble_statement as stmt).1 := by
  unfold assembler_assemble_statement
  have hl : wf_state (match stmt.label with
    | none => as
    | some lab =>
        if as.pass = 1 then define_label as lab
        else if lab.isLocal = false ∧ lab.isAnonFwd = false ∧ lab.isAnonBack = false then
          { as with currentZone := some lab.name }
        else as) := by
    cases stmt.label with
    | none => exact h
    | some lab =>
        simp only
        split
        · exact wf_define_label _ _ h
        · split
          · exact h
          · exact h
  cases stmt.data with
  | empty => exact hl
  | labelOnly => exact hl
  | instruction info => exact wf_assemble_instruction _ _ hl
  | directive name args => exact wf_assemble_directive _ _ _ hl
  | assignment name value => exact wf_assignment _ _ _ hl
  | errorStmt msg => exact wf_error _ _ hl

lemma wf_pass1_line (as : Assembler) (raw : RawStmt) (h : wf_state as) :
    wf_state (assembler_pass1_line as raw) := by
  unfold assembler_pass1_line
  dsimp only
  apply wf_assemble_statement
  obtain ⟨h1, h2, h3, h4⟩ := h
  refine ⟨h1, h2, h3, ?_⟩
  intro l hl
  rcases List.mem_append.mp hl with hmem | hmem
  · exact h4 l hmem
  · rw [List.mem_singleton.mp hmem]
    exact h1

lemma wf_pass1_fold (prog : List RawStmt) :
    ∀ p : Assembler × Bool, wf_state p.1 →
      wf_state ((prog.foldl pass1_step p).1) := by
  induction prog with
  | nil => intro p h; exact h
  | cons raw rest ih =>
      intro p h
      rw [List.foldl_cons]
      apply ih
      unfold pass1_step
      split
      · exact h
      · exact wf_pass1_line _ _ h

lemma wf_pass1 (as : Assembler) (prog : List RawStmt) (h : wf_state as) :
    wf_state (assembler_pass1 as prog) := by
  unfold assembler_pass1
  dsimp only
  exact wf_pass1_fold prog _ ⟨h.2.2.1, h.2.1, h.2.2.1, h.2.2.2⟩

lemma capture_line_address (as : Assembler) (line : AssembledLine)
    (stmt' : Statement) (startPc : Nat) :
    (capture_line as line stmt' startPc).address = line.address := by
  unfold capture_line
  dsimp only
  repeat' split
  all_goals rfl

lemma pass2_line_address (as : Assembler) (line : AssembledLine) :
    (assembler_pass2_line as line).2.address = line.address := by
  unfold assembler_pass2_line
  dsimp only
  exact capture_line_address _ _ _ _

lemma wf_pass2_line (as : Assembler) (line : AssembledLine) (h : wf_state as)
    (hl : line.address < 65536) :
    wf_state (assembler_pass2_line as line).1 := by
  unfold assembler_pass2_line
  dsimp only
  apply wf_assemble_statement
  obtain ⟨h1, h2, h3, h4⟩ := h
  have hbase : wf_state { as with pc := line.address, currentZone := line.zone } :=
    ⟨hl, h2, h3, h4⟩
  split
  · split
    · exact hbase
    · split
      · exact hbase
      · exact hbase
  · exact hbase

lemma wf_pass2_fold (lines : List AssembledLine) :
    ∀ p : Assembler × List AssembledLine × Bool,
      (∀ l ∈ lines, l.address < 65536) → wf_state p.1 →
      (∀ l ∈ p.2.1, l.address < 65536) →
      wf_state ((lines.foldl pass2_step p).1) ∧
      (∀ l ∈ (lines.foldl pass2_step p).2.1, l.address < 65536) := by
  induction lines with
  | nil => intro p _ hwf hacc; exact ⟨hwf, hacc⟩
  | cons line rest ih =>
      intro p hlines hwf hacc
      rw [List.foldl_cons]
      have hline : line.address < 65536 := hlines line (List.mem_cons_self line rest)
      have hrest : ∀ l ∈ rest, l.address < 65536 :=
        fun l hl => hlines l (List.mem_cons_of_mem _ hl)
      apply ih (pass2_step p line) hrest
      · unfold pass2_step
        split
        · exact hwf
        · exact wf_pass2_line _ _ hwf hline
      · unfold pass2_step
        split
        · intro l hl
          rcases List.mem_append.mp hl with hmem | hmem
          · exact hacc l hmem
          · rw [List.mem_singleton.mp hmem]; exact hline
        · intro l hl
          rcases List.mem_append.mp hl with hmem | hmem
          · exact hacc l hmem
          · rw [List.mem_singleton.mp hmem, pass2_line_address]; exact hline

lemma wf_pass2 (as : Assembler) (h : wf_state as) :
    wf_state (assembler_pass2 as) := by
  unfold assembler_pass2
  dsimp only
  obtain ⟨h1, h2, h3, h4⟩ := h
  have hinit : wf_state (pass2_init as) := ⟨h3, h3, h3, h4⟩
  have hfold := wf_pass2_fold (pass2_init as).lines (pass2_init as, [], false)
    (by intro l hl; exact h4 l hl) hinit (by intro l hl; cases hl)
  exact ⟨hfold.1.1, hfold.1.2.1, hfold.1.2.2.1, hfold.2⟩

lemma wf_create : wf_state assembler_create := by
  refine ⟨by decide, by decide, by decide, ?_⟩
  intro l hl
  cases hl

/-- **C9.**  Every byte emission writes inside the 64 KiB image: for any
well-formed state the output address (`real_pc` in pseudo-PC mode, else
`pc`) is a `uint16_t` value below `ASM_MEMORY_SIZE`, afterwards
`lowest_addr ≤ output address ≤ highest_addr`, and the machine-width
invariant is preserved — in particular it holds for the final state of any
assembled program, including those whose PC runs past `$FFFF` (all PC
updates wrap modulo 65536). -/
theorem c9_emit_bounds :
    (∀ (as : Assembler) (b : Nat), wf_state as →
      (if as.inPseudopc then as.realPc else as.pc) < ASM_MEMORY_SIZE ∧
      (assembler_emit_byte as b).lowestAddr ≤
        (if as.inPseudopc then as.realPc else as.pc) ∧
      (if as.inPseudopc then as.realPc else as.pc) ≤
        (assembler_emit_byte as b).highestAddr ∧
      wf_state (assembler_emit_byte as b)) ∧
    (∀ prog : List RawStmt, wf_state (assemble_program prog)) := by
  constructor
  · intro as b h
    obtain ⟨h1, h2, h3, h4⟩ := h
    refine ⟨?_, ?_, ?_, wf_emit_byte as b ⟨h1, h2, h3, h4⟩⟩
    · unfold ASM_MEMORY_SIZE
      split
      · exact h2
      · exact h1
    · unfold assembler_emit_byte
      dsimp only
      repeat' split
      all_goals omega
    · unfold assembler_emit_byte
      dsimp only
      repeat' split
      all_goals omega
  · intro prog
    exact wf_pass2 _ (wf_pass1 _ _ wf_create)

/-- Witness for C9 at the freshly created assembler. -/
theorem c9_emit_bounds_witness :
    (if assembler_create.inPseudopc then assembler_create.realPc
     else assembler_create.pc) < ASM_MEMORY_SIZE ∧
    (assembler_emit_byte assembler_create 0x60).lowestAddr ≤
      (if assembler_create.inPseudopc then assembler_create.realPc
       else assembler_create.pc) ∧
    (if assembler_create.inPseudopc then assembler_create.realPc
     else assembler_create.pc) ≤
      (assembler_emit_byte assembler_create 0x60).highestAddr ∧
    wf_state (assembler_emit_byte assembler_create 0x60) :=
  c9_emit_bounds.1 assembler_create 0x60 wf_create

/-! ## Claim C4: relative-branch range checking -/

/-- `*=$1000` followed by `bne $11002`: the evaluated target `$11002` is
more than 127 bytes past `pc+2`, yet assembly succeeds. -/
def prog_c4 : List RawStmt :=
  [ .directive none "org" [.num 0x1000],
    .instruction none "bne" false false false false (some (.num 0x11002)) ]

/-- **C4 counterexample.**  The branch operand evaluates to `$11002`, whose
distance from `pc+2 = $1002` is `65536 ∉ -128..127`, so the claim demands a
"branch target out of range" error; but the code first truncates the target
to `uint16_t` (`$1002`), finds offset `0`, and emits `D0 00` without any
diagnostic. -/
theorem c4_counterexample :
    read_bytes (assemble_program prog_c4) 0x1000 2 = [0xD0, 0x00] ∧
    (assemble_program prog_c4).errorLog = [] ∧
    ¬(-128 ≤ (0x11002 : Int) - ((0x1000 : Int) + 2) ∧
      (0x11002 : Int) - ((0x1000 : Int) + 2) ≤ 127) := by
  refine ⟨by decide, by decide, by decide⟩

/-- **C4 (amended).**  In pass 2, for every relative-branch instruction with
a defined operand: the target is first truncated to 16 bits
(`uint16_t` conversion); if the truncated target minus `(pc+2)` lies outside
`-128..=127` the assembler reports "branch target out of range" and emits no
bytes; otherwise it emits the branch opcode followed by the single offset
byte `(truncated target - (pc+2)) & 0xFF`. -/
theorem c4_amended (as : Assembler) (info : InstructionInfo) (e : Expr)
    (h2 : as.pass = 2) (hm : info.mode = .relative) (hop : info.operand = some e)
    (hdef : (expr_eval e as.symbols as.anon as.pc 2 as.currentZone).1.defined = true)
    (hcap : as.errors < ASM_MAX_ERRORS) (hps : as.inPseudopc = false) :
    let r := (expr_eval e as.symbols as.anon as.pc 2 as.currentZone).1
    let off : Int := ((u16 r.value : Nat) : Int) - ((as.pc : Int) + 2)
    let res := assembler_assemble_instruction as info
    ((off < -128 ∨ 127 < off) →
      res.2.2 = false ∧
      res.1.memory = as.memory ∧
      res.1.pc = as.pc ∧
      res.1.errorLog = as.errorLog ++ ["branch target out of range"]) ∧
    ((-128 ≤ off ∧ off ≤ 127) →
      res.2.2 = true ∧
      res.1.memory as.pc = info.opcode % 256 ∧
      res.1.memory ((as.pc + 1) % 65536) = (Int.emod off 256).toNat ∧
      res.1.pc = (as.pc + 2) % 65536) := by
  intro r off res
  have hmode : ¬(info.mode = .accumulator ∨ info.mode = .implied) := by
    rw [hm]; decide
  have hncap : ¬ ASM_MAX_ERRORS ≤ as.errors := by omega
  have hroff : off = ((u16 ((expr_eval e as.symbols as.anon as.pc 2
      as.currentZone).1).value : Nat) : Int) - ((as.pc : Int) + 2) := rfl
  constructor
  · intro hrange
    have hcalc : assembler_calc_branch_offset (u16 r.value) as.pc = none := by
      unfold assembler_calc_branch_offset
      dsimp only
      rw [if_pos hrange]
    show (assembler_assemble_instruction as info).2.2 = false ∧
      (assembler_assemble_instruction as info).1.memory = as.memory ∧
      (assembler_assemble_instruction as info).1.pc = as.pc ∧
      (assembler_assemble_instruction as info).1.errorLog =
        as.errorLog ++ ["branch target out of range"]
    unfold assembler_assemble_instruction
    simp only [hop, hmode, if_neg hmode, h2, hdef, hm, hcalc, assembler_error, hncap]
    simp
  · intro hrange
    have hnot : ¬((u16 r.value : Int) - ((as.pc : Int) + 2) < -128 ∨
        127 < (u16 r.value : Int) - ((as.pc : Int) + 2)) := by
      push_neg
      exact ⟨hrange.1, hrange.2⟩
    have hcalc : assembler_calc_branch_offset (u16 r.value) as.pc = some off := by
      unfold assembler_calc_branch_offset
      dsimp only
      rw [if_neg hnot]
    have hne : (as.pc + 1) % 65536 ≠ as.pc := by omega
    have hlt : (Int.emod off 256).toNat < 256 := by
      have h0 : (0 : Int) ≤ Int.emod off 256 := Int.emod_nonneg _ (by omega)
      have h1 : Int.emod off 256 < 256 := Int.emod_lt_of_pos _ (by omega)
      omega
    show (assembler_assemble_instruction as info).2.2 = true ∧
      (assembler_assemble_instruction as info).1.memory as.pc = info.opcode % 256 ∧
      (assembler_assemble_instruction as info).1.memory ((as.pc + 1) % 65536) =
        (Int.emod off 256).toNat ∧
      (assembler_assemble_instruction as info).1.pc = (as.pc + 2) % 65536
    unfold assembler_assemble_instruction
    simp only [hop, hmode, if_neg hmode, h2, hdef, hm, hcalc]
    unfold assembler_emit_byte
    simp only [hps]
    have hne' : as.pc ≠ (as.pc + 1) % 65536 := fun hx => hne hx.symm
    refine ⟨by simp, ?_, ?_, ?_⟩
    · simp [hne', hne]
    · simp [Nat.mod_eq_of_lt hlt]
    · simp

/-- Witness for C4 (amended): a pass-2 `BNE $1005` at `$1000` (offset 3). -/
theorem c4_amended_witness :
    let asw : Assembler := { assembler_create with pass := 2, pc := 0x1000, realPc := 0x1000 }
    let infow : InstructionInfo := ⟨"BNE", .relative, some (.num 0x1005), 0xD0, 2⟩
    let r := (expr_eval (.num 0x1005) asw.symbols asw.anon asw.pc 2 asw.currentZone).1
    let off : Int := ((u16 r.value : Nat) : Int) - ((asw.pc : Int) + 2)
    let res := assembler_assemble_instruction asw infow
    ((off < -128 ∨ 127 < off) →
      res.2.2 = false ∧
      res.1.memory = asw.memory ∧
      res.1.pc = asw.pc ∧
      res.1.errorLog = asw.errorLog ++ ["branch target out of range"]) ∧
    ((-128 ≤ off ∧ off ≤ 127) →
      res.2.2 = true ∧
      res.1.memory asw.pc = infow.opcode % 256 ∧
      res.1.memory ((asw.pc + 1) % 65536) = (Int.emod off 256).toNat ∧
      res.1.pc = (asw.pc + 2) % 65536) :=
  c4_amended { assembler_create with pass := 2, pc := 0x1000, realPc := 0x1000 }
    ⟨"BNE", .relative, some (.num 0x1005), 0xD0, 2⟩ (.num 0x1005)
    rfl rfl rfl (by decide) (by decide) rfl

/-! ## Claim C1: pass-2 re-optimisation never changes the committed size -/

lemma reopt_zeropage_mode_cases (m : String) (mode : AddressingMode) :
    reopt_zeropage_mode m mode = mode ∨
    (reopt_zeropage_mode m mode = .zeropage ∨
     reopt_zeropage_mode m mode = .zeropageX ∨
     reopt_zeropage_mode m mode = .zeropageY) := by
  unfold reopt_zeropage_mode
  cases mode <;> dsimp only
  case absolute =>
    split
    · exact Or.inr (Or.inl rfl)
    · exact Or.inl rfl
  case absoluteX =>
    split
    · exact Or.inr (Or.inr (Or.inl rfl))
    · exact Or.inl rfl
  case absoluteY =>
    split
    · exact Or.inr (Or.inr (Or.inr rfl))
    · exact Or.inl rfl
  all_goals exact Or.inl rfl

lemma reoptimize_size (info : InstructionInfo) (v : Int) :
    (reoptimize info v).size = info.size := by
  unfold reoptimize
  dsimp only
  repeat' split
  all_goals rfl

lemma reoptimize_spec (info : InstructionInfo) (v : Int)
    (h : reoptimize info v ≠ info) :
    ∃ op : OpcodeEntry,
      opcode_find info.mnemonic (reoptimize info v).mode = some op ∧
      op.size = info.size ∧
      (reoptimize info v).opcode = op.opcode ∧
      ((reoptimize info v).mode = .zeropage ∨
       (reoptimize info v).mode = .zeropageX ∨
       (reoptimize info v).mode = .zeropageY) := by
  unfold reoptimize at h ⊢
  dsimp only at h ⊢
  by_cases hz : assembler_is_zeropage v = true
  · rw [if_pos hz] at h ⊢
    by_cases hcond : reopt_zeropage_mode info.mnemonic info.mode ≠ info.mode
    · rw [if_pos hcond] at h ⊢
      cases hf : opcode_find info.mnemonic
          (reopt_zeropage_mode info.mnemonic info.mode) with
      | none => rw [hf] at h; exact absurd rfl h
      | some e =>
          by_cases hsz : e.size = info.size
          · dsimp only
            rw [if_pos hsz]
            rcases reopt_zeropage_mode_cases info.mnemonic info.mode with hc | hc
            · exact absurd hc hcond
            · exact ⟨e, by simpa using hf, hsz, rfl, by simpa using hc⟩
          · simp only [hf] at h
            rw [if_neg hsz] at h
            exact absurd rfl h
    · rw [if_neg hcond] at h
      exact absurd rfl h
  · rw [if_neg hz] at h ⊢
    rw [if_neg (by simp)] at h
    exact absurd rfl h

lemma assemble_instruction_size (as : Assembler) (info : InstructionInfo) :
    ((assembler_assemble_instruction as info).2.1).size = info.size := by
  unfold assembler_assemble_instruction
  cases hop : info.operand <;>
    · dsimp only
      repeat' split
      all_goals (first | rfl | exact reoptimize_size _ _)

/-- `*=$1000  lda zp  zp = $42  rts` — forward reference forces absolute. -/
def prog_c1_fwd : List RawStmt :=
  [ .directive none "org" [.num 0x1000],
    .instruction none "lda" false false false false (some (.sym "zp")),
    .assignment "zp" (.num 0x42),
    .instruction none "rts" false false false false none ]

/-- `*=$1000  zp = $42  lda zp  rts` — known value selects zero-page. -/
def prog_c1_pre : List RawStmt :=
  [ .directive none "org" [.num 0x1000],
    .assignment "zp" (.num 0x42),
    .instruction none "lda" false false false false (some (.sym "zp")),
    .instruction none "rts" false false false false none ]

/-- **C1.**  Pass 2 never changes the committed instruction size: the
re-optimiser preserves `size`, rewrites the opcode byte only to a
zero-page-form entry of the same size, and `assembler_assemble_instruction`
preserves the stored record's size in every branch.  Concretely, a forward
reference `*=$1000  lda zp  zp=$42  rts` assembles to `AD 42 00 60`
(absolute, sizes 3≠2 forbid the rewrite) while defining `zp` first gives
`A5 42 60` (zero-page chosen already in pass 1). -/
theorem c1_size_stability :
    (∀ (info : InstructionInfo) (v : Int),
      (reoptimize info v).size = info.size ∧
      ((reoptimize info v).opcode ≠ info.opcode →
        ∃ op : OpcodeEntry,
          opcode_find info.mnemonic (reoptimize info v).mode = some op ∧
          op.size = info.size ∧
          (reoptimize info v).opcode = op.opcode ∧
          ((reoptimize info v).mode = .zeropage ∨
           (reoptimize info v).mode = .zeropageX ∨
           (reoptimize info v).mode = .zeropageY))) ∧
    (∀ (as : Assembler) (info : InstructionInfo),
      ((assembler_assemble_instruction as info).2.1).size = info.size) ∧
    read_bytes (assemble_program prog_c1_fwd) 0x1000 4 = [0xAD, 0x42, 0x00, 0x60] ∧
    read_bytes (assemble_program prog_c1_pre) 0x1000 3 = [0xA5, 0x42, 0x60] := by
  refine ⟨?_, assemble_instruction_size, by decide, by decide⟩
  intro info v
  refine ⟨reoptimize_size info v, ?_⟩
  intro hop
  exact reoptimize_spec info v (fun hrec => hop (by rw [hrec]))

/-- Witness for C1: an `LDA` record whose absolute form was (hypothetically)
committed with size 2 does get rewritten — to the zero-page entry `A5` of
that same size 2. -/
theorem c1_size_stability_witness :
    (reoptimize ⟨"LDA", .absolute, none, 0xAD, 2⟩ 0x42).opcode ≠
      (⟨"LDA", .absolute, none, 0xAD, 2⟩ : InstructionInfo).opcode ∧
    ∃ op : OpcodeEntry,
      opcode_find "LDA" (reoptimize ⟨"LDA", .absolute, none, 0xAD, 2⟩ 0x42).mode =
        some op ∧
      op.size = 2 ∧
      (reoptimize ⟨"LDA", .absolute, none, 0xAD, 2⟩ 0x42).opcode = op.opcode ∧
      ((reoptimize ⟨"LDA", .absolute, none, 0xAD, 2⟩ 0x42).mode = .zeropage ∨
       (reoptimize ⟨"LDA", .absolute, none, 0xAD, 2⟩ 0x42).mode = .zeropageX ∨
       (reoptimize ⟨"LDA", .absolute, none, 0xAD, 2⟩ 0x42).mode = .zeropageY) :=
  ⟨by decide,
   (c1_size_stability.1 ⟨"LDA", .absolute, none, 0xAD, 2⟩ 0x42).2 (by decide)⟩

/-! ## Claim C2: symbol values across passes -/

/-- `*=$1000  a = lbl  lbl:` — a pass-1 assignment whose right-hand side
refers to a label defined later. -/
def prog_c2 : List RawStmt :=
  [ .directive none "org" [.num 0x1000],
    .assignment "a" (.sym "lbl"),
    .labelOnly ⟨"lbl", false, false, false⟩ ]

/-- **C2 counterexample.**  No `!for`/`!while` runs (the program has none),
yet the symbol `a` holds 0 after pass 1 (the forward reference evaluated
undefined, committing value 0) and 4096 = `$1000` after pass 2 (the replayed
assignment force-updates it with the now-resolved label address). -/
theorem c2_counterexample :
    (symbol_lookup (assembler_pass1 assembler_create prog_c2).symbols "a").map
        Symbol.value = some 0 ∧
    (symbol_lookup (assemble_program prog_c2).symbols "a").map
        Symbol.value = some 4096 ∧
    (0 : Int) ≠ 4096 := by
  refine ⟨by decide, by decide, by decide⟩

lemma assembler_error_symbols (as : Assembler) (msg : String) :
    (assembler_error as msg).symbols = as.symbols := by
  unfold assembler_error
  split <;> rfl

lemma assembler_set_pc_symbols (as : Assembler) (p : Nat) :
    (assembler_set_pc as p).symbols = as.symbols := by
  unfold assembler_set_pc
  dsimp only
  split <;> split <;> rfl

lemma assemble_instruction_symbols (as : Assembler) (info : InstructionInfo) :
    ((assembler_assemble_instruction as info).1).symbols = as.symbols := by
  unfold assembler_assemble_instruction
  cases hop : info.operand <;>
    · dsimp only
      repeat' split
      all_goals (first | rfl | exact assembler_error_symbols _ _)

lemma byte_directive_symbols (args : List Expr) :
    ∀ as : Assembler, ((assemble_byte_directive as args).1).symbols = as.symbols := by
  induction args with
  | nil => intro as; rfl
  | cons a rest ih =>
      intro as
      unfold assemble_byte_directive
      dsimp only
      split
      · exact assembler_error_symbols _ _
      · split
        · split
          · exact ih _
          · exact ih _
        · exact ih _

lemma basic_directive_symbols (as : Assembler) (args : List Expr) :
    ((assemble_basic_directive as args).1).symbols = as.symbols := by
  have hfin : ∀ (s : Assembler) (l a0 : Int) (ex : Bool),
      ((basic_finish s l a0 ex).1).symbols = s.symbols := by
    intro s l a0 ex
    unfold basic_finish
    dsimp only
    split
    · have hemit : ∀ (t : Assembler) (b : Nat),
          (assembler_emit_byte t b).symbols = t.symbols := fun t b => rfl
      have hfold : ∀ (ds : List Nat) (t : Assembler),
          ((ds.foldl assembler_emit_byte t)).symbols = t.symbols := by
        intro ds
        induction ds with
        | nil => intro t; rfl
        | cons d ds ihd => intro t; exact (ihd _).trans (hemit _ _)
      unfold basic_emit_stub
      dsimp only
      simp only [hemit, hfold]
    · rfl
  unfold assemble_basic_directive
  cases h0 : args.get? 0 <;> cases h1 : args.get? 1 <;>
    · dsimp only
      repeat' split
      all_goals
        first
          | exact absurd rfl (by assumption)
          | exact hfin _ _ _ _
          | exact (assembler_error_symbols _ _).trans (hfin _ _ _ _)
          | exact assembler_error_symbols _ _
          | exact (assembler_error_symbols _ _).trans (assembler_error_symbols _ _)
          | rfl

lemma assemble_directive_symbols (as : Assembler) (name : String)
    (args : List Expr) :
    ((assembler_assemble_directive as name args).1).symbols = as.symbols := by
  unfold assembler_assemble_directive
  split
  · exact byte_directive_symbols _ _
  · split
    · unfold assemble_org_directive
      split
      · exact assembler_error_symbols _ _
      · dsimp only
        split
        · exact assembler_set_pc_symbols _ _
        · exact assembler_error_symbols _ _
    · split
      · exact basic_directive_symbols _ _
      · split
        · split
          · exact assembler_error_symbols _ _
          · dsimp only
            split
            · unfold assembler_pseudopc_start
              split
              · exact assembler_error_symbols _ _
              · rfl
            · exact assembler_error_symbols _ _
        · split
          · unfold assembler_pseudopc_end
            split
            · rfl
            · exact assembler_error_symbols _ _
          · rfl

lemma assemble_statement_symbols (as : Assembler) (stmt : Statement)
    (h2 : as.pass = 2) (hna : ∀ n v, stmt.data ≠ .assignment n v) :
    ((assembler_assemble_statement as stmt).1).symbols = as.symbols := by
  unfold assembler_assemble_statement
  have hlab : (match stmt.label with
      | none => as
      | some lab =>
          if as.pass = 1 then define_label as lab
          else if lab.isLocal = false ∧ lab.isAnonFwd = false ∧ lab.isAnonBack = false then
            { as with currentZone := some lab.name }
          else as).symbols = as.symbols := by
    cases stmt.label with
    | none => rfl
    | some lab =>
        simp only
        rw [if_neg (by omega)]
        split <;> rfl
  cases hd : stmt.data with
  | empty => simpa using hlab
  | labelOnly => simpa using hlab
  | instruction info =>
      dsimp only
      rw [assemble_instruction_symbols, hlab]
  | directive name args =>
      dsimp only
      rw [assemble_directive_symbols, hlab]
  | assignment n v => exact absurd hd (hna n v)
  | errorStmt msg =>
      dsimp only
      rw [assembler_error_symbols, hlab]

lemma symbol_define_force_lookup (tbl : SymbolTable) (name : String)
    (value : Int) (flags : SymFlags) (hfu : flags.forceUpdate = true) :
    ∃ s, symbol_lookup (symbol_define tbl name value flags).2 name = some s ∧
      s.value = value := by
  induction tbl with
  | nil =>
      refine ⟨⟨name, value, flags.orF flagDefined⟩, ?_, rfl⟩
      simp [symbol_define, symbol_lookup, List.find?, strEqNoCase]
  | cons sym rest ih =>
      cases hc : strEqNoCase sym.name name with
      | true =>
          have hb : (sym.flags.constant && !flags.forceUpdate) = false := by
            simp [hfu]
          refine ⟨symbol_update sym value flags, ?_, rfl⟩
          have hn : strEqNoCase (symbol_update sym value flags).name name = true := by
            simpa [symbol_update] using hc
          simp [symbol_define, hc, hb, symbol_lookup, List.find?, hn]
      | false =>
          obtain ⟨s, hs1, hs2⟩ := ih
          refine ⟨s, ?_, hs2⟩
          simpa [symbol_define, hc, symbol_lookup, List.find?] using hs1

/-- **C2 (amended).**  In pass 2 only assignment statements touch the symbol
store: replaying any non-assignment line leaves every symbol's value exactly
as pass 1 left it, while a replayed assignment `name = expr` force-updates
`name` to the pass-2 evaluation of `expr` — which differs from the pass-1
value when the right-hand side referred to a label defined later (pass 1
committed 0). -/
theorem c2_amended :
    (∀ (as : Assembler) (line : AssembledLine), as.pass = 2 →
      (∀ n v, line.stmt.data ≠ .assignment n v) →
      ((assembler_pass2_line as line).1).symbols = as.symbols) ∧
    (∀ (as : Assembler) (name : String) (value : Expr), as.pass = 2 →
      ∃ s, symbol_lookup ((assemble_assignment as name value).symbols) name =
          some s ∧
        s.value = (expr_eval value as.symbols as.anon as.pc 2
          as.currentZone).1.value) := by
  constructor
  · intro as line h2 hna
    unfold assembler_pass2_line
    dsimp only
    split
    all_goals repeat' split
    all_goals exact assemble_statement_symbols _ _ h2 hna
  · intro as name value h2
    unfold assemble_assignment
    dsimp only
    rw [h2]
    split
    · exact symbol_define_force_lookup _ _ _ _ rfl
    · exact symbol_define_force_lookup _ _ _ _ rfl

/-- Witness for C2 (amended): replaying an empty line in pass 2 leaves the
symbol table untouched, and a pass-2 assignment `a = 7` stores value 7. -/
theorem c2_amended_witness :
    ((assembler_pass2_line { assembler_create with pass := 2 }
        { stmt := ⟨none, .empty⟩, address := 0x0801, zone := none }).1).symbols =
      ({ assembler_create with pass := 2 } : Assembler).symbols ∧
    ∃ s, symbol_lookup ((assemble_assignment { assembler_create with pass := 2 }
        "a" (.num 7)).symbols) "a" = some s ∧
      s.value = (expr_eval (.num 7)
        ({ assembler_create with pass := 2 } : Assembler).symbols
        ({ assembler_create with pass := 2 } : Assembler).anon
        ({ assembler_create with pass := 2 } : Assembler).pc 2
        ({ assembler_create with pass := 2 } : Assembler).currentZone).1.value :=
  ⟨c2_amended.1 { assembler_create with pass := 2 }
      { stmt := ⟨none, .empty⟩, address := 0x0801, zone := none } rfl
      (fun n v h => by cases h),
   c2_amended.2 { assembler_create with pass := 2 } "a" (.num 7) rfl⟩

/-! ## Claim C3: stored byte counts versus pass-1 sizes -/

/-- `*=$1000  !basic` — the BASIC stub at `$1000` is 12 bytes long. -/
def prog_c3 : List RawStmt :=
  [ .directive none "org" [.num 0x1000],
    .directive none "basic" [] ]

/-- **C3 counterexample.**  The `!basic` line at `$1000` advances the pass-1
PC by 12 bytes (`$1000` → `$100C`: its stored address is 4096 and the final
pass-1 PC is 4108), but the `byte_count` stored for it in pass 2 is capped
at 8, so it does not equal the pass-1 size. -/
theorem c3_counterexample :
    (assembler_pass1 assembler_create prog_c3).pc = 4108 ∧
    ((assembler_pass1 assembler_create prog_c3).lines.get? 1).map
        AssembledLine.address = some 4096 ∧
    ((assemble_program prog_c3).lines.get? 1).map
        AssembledLine.byteCount = some 8 ∧
    (8 : Nat) ≠ 4108 - 4096 := by
  refine ⟨by decide, by decide, by decide, by decide⟩

lemma emit_byte_pc (as : Assembler) (b : Nat) :
    (assembler_emit_byte as b).pc = (as.pc + 1) % 65536 := rfl

lemma emit_word_pc (as : Assembler) (w : Nat) :
    (assembler_emit_word as w).pc = ((as.pc + 1) % 65536 + 1) % 65536 := rfl

lemma error_state (as : Assembler) (msg : String)
    (h : as.errors < ASM_MAX_ERRORS) :
    (assembler_error as msg).pc = as.pc ∧
    (assembler_error as msg).errorLog = as.errorLog ++ [msg] ∧
    (assembler_error as msg).inPseudopc = as.inPseudopc := by
  unfold assembler_error
  rw [if_neg (by omega)]
  exact ⟨rfl, rfl, rfl⟩

lemma assemble_instruction_pass2_dichotomy (as : Assembler)
    (info : InstructionInfo) (h2 : as.pass = 2) (hp : as.inPseudopc = false)
    (hai : info.mode = .accumulator ∨ info.mode = .implied → info.size = 1)
    (hrel : info.mode = .relative → info.size = 2)
    (hs : info.size = 1 ∨ info.size = 2 ∨ info.size = 3)
    (haddr : as.pc + info.size < 65536)
    (hcap : as.errors < ASM_MAX_ERRORS) :
    (((assembler_assemble_instruction as info).1).pc = as.pc + info.size ∧
     ((assembler_assemble_instruction as info).1).errorLog = as.errorLog ∧
     ((assembler_assemble_instruction as info).1).inPseudopc = false) ∨
    (∃ msg, ((assembler_assemble_instruction as info).1).pc = as.pc ∧
     ((assembler_assemble_instruction as info).1).errorLog =
        as.errorLog ++ [msg] ∧
     ((assembler_assemble_instruction as info).1).inPseudopc = false) := by
  unfold assembler_assemble_instruction
  by_cases hmode : info.mode = .accumulator ∨ info.mode = .implied
  · rw [if_pos hmode, if_pos h2]
    left
    have h1 := hai hmode
    refine ⟨?_, rfl, hp⟩
    rw [emit_byte_pc]
    omega
  · rw [if_neg hmode]
    dsimp only
    cases hop : info.operand with
    | none =>
        dsimp only
        rw [if_neg (by simp)]
        by_cases hrm : info.mode = .relative
        · rw [if_pos hrm, if_pos h2]
          have h2sz := hrel hrm
          split
          · right
            obtain ⟨e1, e2, e3⟩ :=
              error_state as "branch target out of range" hcap
            exact ⟨_, e1, e2, e3.trans hp⟩
          · left
            refine ⟨?_, rfl, hp⟩
            simp only [emit_byte_pc]
            omega
        · rw [if_neg hrm, if_pos (show as.pass = 2 ∧ true = true from ⟨h2, rfl⟩), if_pos h2]
          dsimp only
          have hsz := reoptimize_size info 0
          split
          all_goals left
          all_goals refine ⟨?_, rfl, hp⟩
          all_goals simp only [emit_byte_pc, emit_word_pc]
          all_goals (try simp only [imp_false] at *)
          all_goals omega
    | some e =>
        dsimp only
        cases hx : expr_eval e as.symbols as.anon as.pc as.pass as.currentZone
          with
        | mk r anon' =>
        dsimp only
        by_cases hdef : r.defined = false
        · rw [if_pos ⟨h2, hdef⟩]
          right
          obtain ⟨e1, e2, e3⟩ :=
            error_state { as with anon := anon' } "undefined symbol in operand"
              hcap
          exact ⟨_, e1, e2, e3.trans hp⟩
        · have hdef' : r.defined = true := by
            cases hr : r.defined
            · exact absurd hr hdef
            · rfl
          rw [if_neg (by simp [hdef'])]
          by_cases hrm : info.mode = .relative
          · rw [if_pos hrm, if_pos h2]
            have h2sz := hrel hrm
            split
            · right
              obtain ⟨e1, e2, e3⟩ :=
                error_state { as with anon := anon' }
                  "branch target out of range" hcap
              exact ⟨_, e1, e2, e3.trans hp⟩
            · left
              refine ⟨?_, rfl, hp⟩
              simp only [emit_byte_pc]
              omega
          · rw [if_neg hrm, if_pos (show as.pass = 2 ∧ r.defined = true from ⟨h2, hdef'⟩), if_pos h2]
            dsimp only
            have hsz := reoptimize_size info r.value
            split
            all_goals left
            all_goals refine ⟨?_, rfl, hp⟩
            all_goals simp only [emit_byte_pc, emit_word_pc]
            all_goals (try simp only [imp_false] at *)
            all_goals omega

lemma assemble_statement_pass2_dichotomy (b : Assembler) (stmt : Statement)
    (info : InstructionInfo) (h2 : b.pass = 2) (hp : b.inPseudopc = false)
    (hd : stmt.data = .instruction info)
    (hai : info.mode = .accumulator ∨ info.mode = .implied → info.size = 1)
    (hrel : info.mode = .relative → info.size = 2)
    (hs : info.size = 1 ∨ info.size = 2 ∨ info.size = 3)
    (haddr : b.pc + info.size < 65536)
    (hcap : b.errors < ASM_MAX_ERRORS) :
    (((assembler_assemble_statement b stmt).1).pc = b.pc + info.size ∧
     ((assembler_assemble_statement b stmt).1).errorLog = b.errorLog ∧
     ((assembler_assemble_statement b stmt).1).inPseudopc = false) ∨
    (∃ msg, ((assembler_assemble_statement b stmt).1).pc = b.pc ∧
     ((assembler_assemble_statement b stmt).1).errorLog =
        b.errorLog ++ [msg] ∧
     ((assembler_assemble_statement b stmt).1).inPseudopc = false) := by
  unfold assembler_assemble_statement
  rw [hd]
  dsimp only
  cases hl : stmt.label with
  | none =>
      dsimp only
      exact assemble_instruction_pass2_dichotomy b info h2 hp hai hrel hs
        haddr hcap
  | some lab =>
      dsimp only
      rw [if_neg (by omega)]
      split
      · exact assemble_instruction_pass2_dichotomy
          { b with currentZone := some lab.name } info h2 hp hai hrel hs
          haddr hcap
      · exact assemble_instruction_pass2_dichotomy b info h2 hp hai hrel hs
          haddr hcap

lemma capture_line_byteCount_of_pc (c : Assembler) (line : AssembledLine)
    (stmt' : Statement) (startPc n : Nat)
    (hp : c.inPseudopc = false) (hpc : c.pc = startPc + n)
    (h1 : 0 < n) (h8 : n ≤ 8) :
    (capture_line c line stmt' startPc).byteCount = n := by
  unfold capture_line
  dsimp only
  rw [hp]
  simp only [Bool.false_eq_true, if_false]
  rw [hpc]
  rw [if_pos (by omega)]
  dsimp only
  omega

lemma capture_line_byteCount_same (c : Assembler) (line : AssembledLine)
    (stmt' : Statement) (startPc : Nat)
    (hp : c.inPseudopc = false) (hpc : c.pc = startPc) :
    (capture_line c line stmt' startPc).byteCount = line.byteCount := by
  unfold capture_line
  dsimp only
  rw [hp]
  simp only [Bool.false_eq_true, if_false]
  rw [hpc]
  rw [if_neg (by omega)]
  rw [if_neg (by omega)]

lemma c3_capture_helper (b : Assembler) (line : AssembledLine)
    (stmt : Statement) (info : InstructionInfo) (logs0 : List String)
    (hs : info.size = 1 ∨ info.size = 2 ∨ info.size = 3)
    (hdich :
      (((assembler_assemble_statement b stmt).1).pc =
          line.address + info.size ∧
       ((assembler_assemble_statement b stmt).1).errorLog = logs0 ∧
       ((assembler_assemble_statement b stmt).1).inPseudopc = false) ∨
      (∃ msg, ((assembler_assemble_statement b stmt).1).pc = line.address ∧
       ((assembler_assemble_statement b stmt).1).errorLog =
          logs0 ++ [msg] ∧
       ((assembler_assemble_statement b stmt).1).inPseudopc = false)) :
    ((capture_line (assembler_assemble_statement b stmt).1 line
        ((assembler_assemble_statement b stmt).2.1) line.address).byteCount =
        info.size ∧
     ((assembler_assemble_statement b stmt).1).errorLog = logs0) ∨
    (∃ msg, ((assembler_assemble_statement b stmt).1).errorLog =
        logs0 ++ [msg] ∧
     (capture_line (assembler_assemble_statement b stmt).1 line
        ((assembler_assemble_statement b stmt).2.1) line.address).byteCount =
        line.byteCount) := by
  rcases hdich with ⟨hpc, hlog, hp'⟩ | ⟨msg, hpc, hlog, hp'⟩
  · left
    refine ⟨?_, hlog⟩
    exact capture_line_byteCount_of_pc _ line _ line.address info.size hp' hpc
      (by omega) (by omega)
  · right
    refine ⟨msg, hlog, ?_⟩
    exact capture_line_byteCount_same _ line _ line.address hp' hpc

/-- **C3 (amended).**  The stored `byte_count` equals the pass-1 size only
when the pass-2 emission is between 1 and 8 bytes: for an instruction line
(whose committed size is 1–3) replayed in pass 2, either `byte_count` is
exactly the committed size, or the re-assembly reports one error and leaves
the previous `byte_count` in place.  Lines emitting more than 8 bytes — the
12-byte `!basic` stub — are capped at 8. -/
theorem c3_amended (as : Assembler) (line : AssembledLine)
    (info : InstructionInfo)
    (h2 : as.pass = 2) (hps : as.inPseudopc = false)
    (hd : line.stmt.data = .instruction info)
    (hai : info.mode = .accumulator ∨ info.mode = .implied → info.size = 1)
    (hrel : info.mode = .relative → info.size = 2)
    (hs : info.size = 1 ∨ info.size = 2 ∨ info.size = 3)
    (haddr : line.address + info.size < 65536)
    (hcap : as.errors < ASM_MAX_ERRORS) :
    ((assembler_pass2_line as line).2.byteCount = info.size ∧
     ((assembler_pass2_line as line).1).errorLog = as.errorLog) ∨
    (∃ msg, ((assembler_pass2_line as line).1).errorLog =
        as.errorLog ++ [msg] ∧
     (assembler_pass2_line as line).2.byteCount = line.byteCount) := by
  unfold assembler_pass2_line
  dsimp only
  rw [if_neg (by simp [hps])]
  split
  · split
    · exact c3_capture_helper
        { as with
            pc := line.address
            currentZone := line.zone
            anon := anon_define_forward as.anon line.address }
        line line.stmt info as.errorLog hs
        (assemble_statement_pass2_dichotomy _ _ info h2 hps hd hai hrel hs
          haddr hcap)
    · split
      · exact c3_capture_helper
          { as with
              pc := line.address
              currentZone := line.zone
              anon := anon_define_backward as.anon line.address }
          line line.stmt info as.errorLog hs
          (assemble_statement_pass2_dichotomy _ _ info h2 hps hd hai hrel hs
            haddr hcap)
      · exact c3_capture_helper
          { as with pc := line.address, currentZone := line.zone }
          line line.stmt info as.errorLog hs
          (assemble_statement_pass2_dichotomy _ _ info h2 hps hd hai hrel hs
            haddr hcap)
  · exact c3_capture_helper
      { as with pc := line.address, currentZone := line.zone }
      line line.stmt info as.errorLog hs
      (assemble_statement_pass2_dichotomy _ _ info h2 hps hd hai hrel hs
        haddr hcap)

/-- The concrete instruction record for the C3 witness: `LDA $1234`. -/
def c3_wit_info : InstructionInfo :=
  ⟨"LDA", .absolute, some (.num 0x1234), 0xAD, 3⟩

/-- The concrete stored line for the C3 witness. -/
def c3_wit_line : AssembledLine :=
  { stmt := ⟨none, .instruction c3_wit_info⟩, address := 0x1000, zone := none }

/-- Witness for C3 (amended): replaying a stored `LDA $1234` line at `$1000`
in pass 2. -/
theorem c3_amended_witness :
    ((assembler_pass2_line { assembler_create with pass := 2 }
        c3_wit_line).2.byteCount = c3_wit_info.size ∧
     ((assembler_pass2_line { assembler_create with pass := 2 }
        c3_wit_line).1).errorLog =
        ({ assembler_create with pass := 2 } : Assembler).errorLog) ∨
    (∃ msg, ((assembler_pass2_line { assembler_create with pass := 2 }
        c3_wit_line).1).errorLog =
        ({ assembler_create with pass := 2 } : Assembler).errorLog ++ [msg] ∧
     (assembler_pass2_line { assembler_create with pass := 2 }
        c3_wit_line).2.byteCount = c3_wit_line.byteCount) :=
  c3_amended { assembler_create with pass := 2 } c3_wit_line c3_wit_info
    rfl rfl rfl (by decide) (by decide) (by decide) (by decide) (by decide)

end ASM64
